import Mathlib

/-!
# Receipt processor: scoring engine and result store

A shallow embedding of `receipt-processor/main.go`.

* Go strings are modelled by Lean `String`s (sequences of Unicode scalar
  values); `len` is the UTF-8 byte length.  Every string that reaches
  `calculatePoints` comes out of `encoding/json`, which only produces valid
  UTF-8.
* Go `int` is the 64-bit two's complement integer: every addition wraps
  (`wrapInt64`).
* `float64` values are modelled exactly: a finite value is the integer `k`
  standing for `k / 2^1074`; rounding is round-to-nearest, ties-to-even.
  The two zeros are identified, since no operation of the program tells them
  apart.
* The Go specification leaves the result of converting an out-of-range
  floating-point value (NaN, infinities, magnitude beyond int64) to `int`
  implementation-dependent.  That result is the parameter `conv` of the
  scoring function; everything proved for all `conv` holds on every platform.
* The JSON decoder and `uuid.New` are outside the program: the decoder is the
  parameter `decode`, and the identifier drawn for a request is given with it.
* The handlers are modelled twice: as functions on the store, for requests
  served one after the other, and as goroutines that execute one statement at
  a time under any schedule, sharing the store and the mutex `mu`.  Every
  access to the two maps is between `mu.Lock()` and `mu.Unlock()`, so the
  interleavings of statements are all the behaviours there are; a goroutine
  running alone does what the function does (`run_alone_process`,
  `run_alone_get`).
-/

set_option exponentiation.threshold 5000

namespace ReceiptProcessor

/-! ## Data model (main.go, lines 16-37) -/

/-- Item of a receipt (`type Item struct`). -/
structure Item where
  ShortDescription : String
  Price : String
deriving DecidableEq, Repr

/-- Receipt as decoded from the request body (`type Receipt struct`). -/
structure Receipt where
  Retailer : String
  PurchaseDate : String
  PurchaseTime : String
  Total : String
  Items : List Item
deriving DecidableEq, Repr

/-! ## Go `int` -/

/-- Reduction of an integer to the int64 range, two's complement. -/
def wrapInt64 (z : Int) : Int :=
  (z + 9223372036854775808) % 18446744073709551616 - 9223372036854775808

/-- Go `a + b` on `int`. -/
def addInt (a b : Int) : Int := wrapInt64 (a + b)

/-- Go `a * b` on `int`. -/
def mulInt (a b : Int) : Int := wrapInt64 (a * b)

/-- Largest value of `int`. -/
def maxInt64 : Int := 9223372036854775807

/-- Smallest value of `int`. -/
def minInt64 : Int := -9223372036854775808

/-- The integer lies in the range of `int`. -/
def InRange (z : Int) : Prop := minInt64 ≤ z ∧ z ≤ maxInt64

instance (z : Int) : Decidable (InRange z) := by
  unfold InRange; infer_instance

/-! ## Characters and strings -/

/-- Byte `'0' <= c && c <= '9'`. -/
def isDigit (c : Char) : Bool := 48 ≤ c.toNat && c.toNat ≤ 57

/-- Value of a decimal digit, `c - '0'`. -/
def digitVal (c : Char) : Nat := c.toNat - 48

/-- Number of bytes of the UTF-8 encoding of a character. -/
def utf8Len (c : Char) : Nat :=
  if c.toNat < 128 then 1 else if c.toNat < 2048 then 2 else if c.toNat < 65536 then 3 else 4

/-- Go `len(s)` of a string given by its characters: the number of bytes. -/
def byteLen : List Char → Nat
  | [] => 0
  | c :: cs => utf8Len c + byteLen cs

/-- Go `unicode.IsSpace`: the characters with the Unicode White_Space property. -/
def isSpace (c : Char) : Bool :=
  let n := c.toNat
  (9 ≤ n && n ≤ 13) || n == 32 || n == 133 || n == 160 || n == 5760 ||
  (8192 ≤ n && n ≤ 8202) || n == 8232 || n == 8233 || n == 8239 || n == 8287 || n == 12288

/-- Go `strings.TrimSpace`: leading and trailing white space removed. -/
def TrimSpace (s : List Char) : List Char :=
  ((s.dropWhile isSpace).reverse.dropWhile isSpace).reverse

/-- Character class `[a-zA-Z0-9]` of the retailer pattern. -/
def alphaNum (c : Char) : Bool :=
  (97 ≤ c.toNat && c.toNat ≤ 122) || (65 ≤ c.toNat && c.toNat ≤ 90) ||
  (48 ≤ c.toNat && c.toNat ≤ 57)

/-- Go `re.FindAllString(s, -1)` for a pattern that is one character class:
the successive non-overlapping matches, each a single character of the class. -/
def FindAllString (cls : Char → Bool) : List Char → List String
  | [] => []
  | c :: cs => if cls c then String.singleton c :: FindAllString cls cs
               else FindAllString cls cs

/-- Go `strings.TrimPrefix`. -/
def TrimPrefix (s pre : List Char) : List Char :=
  if pre.isPrefixOf s then s.drop pre.length else s

/-- Go `strings.HasSuffix`. -/
def HasSuffix (s suffix : List Char) : Bool := suffix.isSuffixOf s

/-- Go `strings.TrimSuffix`. -/
def TrimSuffix (s suffix : List Char) : List Char :=
  if suffix.isSuffixOf s then s.take (s.length - suffix.length) else s

/-! ## `float64` -/

/-- IEEE-754 binary64 value.  `fin k` is the finite value `k / 2^1074`; every
finite double is such a multiple, with `|k| < 2^2098` and at most 53
significant bits.  Positive and negative zero are both `fin 0`. -/
inductive F64 where
  | nan : F64
  | inf (neg : Bool) : F64
  | fin (k : Int) : F64
deriving DecidableEq, Repr

/-- Number of units `2^-1074` in `1.0`. -/
def scale : Nat := 2 ^ 1074

/-- Binary length of `q` for `q < 2^(2^lvl)`, by halving the window. -/
def bitLenAux : Nat → Nat → Nat
  | 0, q => if q = 0 then 0 else 1
  | lvl + 1, q =>
    if q < 2 ^ 2 ^ lvl then bitLenAux lvl q else 2 ^ lvl + bitLenAux lvl (q / 2 ^ 2 ^ lvl)

/-- Number of binary digits of `q`, for `q < 2^4096`. -/
def bitLen (q : Nat) : Nat := bitLenAux 12 q

/-- The integer nearest to `a / b`, a tie going to the even one. -/
def roundHalfEven (a b : Nat) : Nat :=
  let q := a / b
  let r := a % b
  if 2 * r < b then q else if b < 2 * r then q + 1 else if q % 2 = 0 then q else q + 1

/-- Round-to-nearest-even of the non-negative rational `n / d` to binary64, in
units of `2^-1074`: 53 significant bits, gradual underflow below `2^-1022`;
`none` when the rounded value is beyond the largest finite double. -/
def roundToF64 (n d : Nat) : Option Nat :=
  let num := n * scale
  if 2 ^ 2098 ≤ num / d then none else
  let step := 2 ^ (bitLen (num / d) - 53)
  let k := roundHalfEven num (d * step) * step
  if k < 2 ^ 2098 then some k else none

/-- Integer with the sign given by `neg`. -/
def signed (neg : Bool) (k : Nat) : Int := if neg then -(k : Int) else (k : Int)

/-- Go `x * y` on float64. -/
def F64.mul : F64 → F64 → F64
  | .nan, _ => .nan
  | _, .nan => .nan
  | .inf a, .inf b => .inf (a != b)
  | .inf a, .fin k => if k = 0 then .nan else .inf (a != decide (k < 0))
  | .fin k, .inf b => if k = 0 then .nan else .inf (decide (k < 0) != b)
  | .fin a, .fin b =>
    match roundToF64 (a.natAbs * b.natAbs) (scale * scale) with
    | some k => .fin (signed (decide (a < 0) != decide (b < 0)) k)
    | none => .inf (decide (a < 0) != decide (b < 0))

/-- Go `x == y` on float64: NaN equals nothing. -/
def F64.eq : F64 → F64 → Bool
  | .nan, _ => false
  | _, .nan => false
  | x, y => decide (x = y)

/-- Go `math.Ceil`. -/
def Ceil : F64 → F64
  | .fin k => .fin (-((-k) / (scale : Int)) * (scale : Int))
  | x => x

/-- Go `math.Mod(x, y)`: the exact remainder with the sign of `x`. -/
def Mod : F64 → F64 → F64
  | .fin a, .fin b =>
    if b = 0 then .nan
    else .fin (if 0 ≤ a then a % (b.natAbs : Int) else -((-a) % (b.natAbs : Int)))
  | .fin a, .inf _ => .fin a
  | _, _ => .nan

/-- Integer part of a finite double, rounded toward zero. -/
def truncToInt (k : Int) : Int :=
  if 0 ≤ k then k / (scale : Int) else -((-k) / (scale : Int))

/-- Go `int(x)` for a float64 `x`: truncation toward zero when the result is
representable; otherwise the implementation-dependent value `conv x`. -/
def floatToInt (conv : F64 → Int) (x : F64) : Int :=
  match x with
  | .fin k =>
    if minInt64 ≤ truncToInt k ∧ truncToInt k ≤ maxInt64 then truncToInt k
    else wrapInt64 (conv x)
  | _ => wrapInt64 (conv x)

/-- Go `float64(z)` for an `int`: the nearest double. -/
def intToFloat (z : Int) : F64 :=
  match roundToF64 z.natAbs 1 with
  | some k => .fin (signed (decide (z < 0)) k)
  | none => .inf (decide (z < 0))

/-- The constant `0.2` as float64: `0x3FC999999999999A`. -/
def const02 : F64 := .fin ((7205759403792794 * 2 ^ 1019 : Nat) : Int)

/-- The constant `0.25` as float64. -/
def const025 : F64 := .fin ((2 ^ 1072 : Nat) : Int)

/-- The constant `0` as float64. -/
def const0 : F64 := .fin 0

/-- Out-of-range conversion on amd64: the "integer indefinite" value. -/
def convAMD64 : F64 → Int := fun _ => minInt64

/-- Out-of-range conversion on arm64: saturation, NaN to zero. -/
def convARM64 : F64 → Int
  | .nan => 0
  | .inf neg => if neg then minInt64 else maxInt64
  | .fin k => if k < 0 then minInt64 else maxInt64

/-! ## `strconv.ParseFloat(s, 64)` -/

/-- Go `lower(c)` of strconv: the byte with the case bit set. -/
def lower (c : Char) : Nat := c.toNat ||| 32

/-- Go `commonPrefixLenIgnoreCase(s, pre)`, `pre` in lower case. -/
def commonPrefixLenIgnoreCase : List Char → List Char → Nat
  | c :: s, p :: pre =>
    if (if 65 ≤ c.toNat ∧ c.toNat ≤ 90 then c.toNat + 32 else c.toNat) = p.toNat
    then commonPrefixLenIgnoreCase s pre + 1 else 0
  | _, _ => 0

/-- Go `special(s)`: the infinities and NaN, with the unread rest of `s`. -/
def special (s : List Char) : Option (F64 × List Char) :=
  match s with
  | [] => none
  | c :: cs =>
    if c = '+' ∨ c = '-' ∨ c = 'i' ∨ c = 'I' then
      let body := if c = '+' ∨ c = '-' then cs else s
      let n := commonPrefixLenIgnoreCase body "infinity".toList
      let n := if 3 < n ∧ n < 8 then 3 else n
      if n = 3 ∨ n = 8 then some (.inf (decide (c = '-')), body.drop n) else none
    else if c = 'n' ∨ c = 'N' then
      if commonPrefixLenIgnoreCase s "nan".toList = 3 then some (.nan, s.drop 3) else none
    else none

/-- State of the mantissa loop of `readFloat`.  `mantissa` holds every digit
read (Go keeps 19 of them and a `trunc` flag, and goes back to the full
decimal when they do not decide the rounding). -/
structure Mantissa where
  mantissa : Nat
  nd : Nat
  dp : Int
  sawdot : Bool
  sawdigits : Bool
  underscores : Bool
deriving DecidableEq, Repr

/-- The mantissa loop of `readFloat`, in base 16 when `hex`. -/
def readDigits (hex : Bool) : List Char → Mantissa → Mantissa × List Char
  | [], m => (m, [])
  | c :: cs, m =>
    if c = '_' then readDigits hex cs { m with underscores := true }
    else if c = '.' then
      if m.sawdot then (m, c :: cs)
      else readDigits hex cs { m with sawdot := true, dp := m.nd }
    else if isDigit c then
      if c = '0' ∧ m.nd = 0 then
        readDigits hex cs { m with sawdigits := true, dp := m.dp - 1 }
      else
        readDigits hex cs { m with
          sawdigits := true, nd := m.nd + 1,
          mantissa := m.mantissa * (if hex then 16 else 10) + digitVal c }
    else if hex ∧ 97 ≤ lower c ∧ lower c ≤ 102 then
      readDigits hex cs { m with
        sawdigits := true, nd := m.nd + 1, mantissa := m.mantissa * 16 + (lower c - 97 + 10) }
    else (m, c :: cs)

/-- The exponent loop of `readFloat`: the exponent stops growing at 10000. -/
def readExponent : List Char → Nat → Bool → Nat × Bool × List Char
  | [], e, u => (e, u, [])
  | c :: cs, e, u =>
    if isDigit c then readExponent cs (if e < 10000 then e * 10 + digitVal c else e) u
    else if c = '_' then readExponent cs e true
    else (e, u, c :: cs)

/-- What `readFloat` returns: the number is `mantissa * base^exp`, base 2 when
`hex` and 10 otherwise; `rest` is the unread input. -/
structure ReadFloat where
  mantissa : Nat
  exp : Int
  neg : Bool
  hex : Bool
  underscores : Bool
  rest : List Char
deriving DecidableEq, Repr

/-- Go `readFloat(s)`; `none` is `ok == false`. -/
def readFloat (s : List Char) : Option ReadFloat :=
  match s with
  | [] => none
  | c0 :: cs0 =>
    let neg := decide (c0 = '-')
    let s1 := if c0 = '+' ∨ c0 = '-' then cs0 else s
    let hex := match s1 with
      | a :: b :: _ :: _ => decide (a = '0') && decide (lower b = 120)
      | _ => false
    let s2 := if hex then s1.drop 2 else s1
    let (m, s3) := readDigits hex s2 ⟨0, 0, 0, false, false, false⟩
    if !m.sawdigits then none else
    let dp0 : Int := if m.sawdot then m.dp else (m.nd : Int)
    let dp : Int := if hex then dp0 * 4 else dp0
    let ndMant : Int := if hex then (m.nd : Int) * 4 else (m.nd : Int)
    let noExp : Option ReadFloat :=
      if hex then none else some ⟨m.mantissa, dp - ndMant, neg, hex, m.underscores, s3⟩
    match s3 with
    | [] => noExp
    | c :: s4 =>
      if lower c = (if hex then 112 else 101) then
        match s4 with
        | [] => none
        | d :: s5 =>
          let esign : Int := if d = '-' then -1 else 1
          let s6 := if d = '+' ∨ d = '-' then s5 else s4
          match s6 with
          | [] => none
          | x :: _ =>
            if !isDigit x then none else
            let (e, u, rest) := readExponent s6 0 m.underscores
            some ⟨m.mantissa, dp + (e : Int) * esign - ndMant, neg, hex, u, rest⟩
      else noExp

/-- The loop of `underscoreOK`: `saw` is 0 after a digit, 1 after an
underscore, 2 after anything else (or at the start). -/
def underscoreLoop (hex : Bool) : List Char → Nat → Bool
  | [], saw => saw != 1
  | c :: cs, saw =>
    if isDigit c ∨ (hex ∧ 97 ≤ lower c ∧ lower c ≤ 102) then underscoreLoop hex cs 0
    else if c = '_' then (if saw != 0 then false else underscoreLoop hex cs 1)
    else if saw = 1 then false
    else underscoreLoop hex cs 2

/-- Go `underscoreOK(s)`: underscores only between digits (or after the base
prefix). -/
def underscoreOK (s : List Char) : Bool :=
  let s1 := match s with
    | c :: cs => if c = '-' ∨ c = '+' then cs else s
    | [] => s
  match s1 with
  | a :: b :: cs =>
    if a = '0' ∧ (lower b = 98 ∨ lower b = 111 ∨ lower b = 120) then
      underscoreLoop (lower b = 120) cs 0
    else underscoreLoop false s1 2
  | _ => underscoreLoop false s1 2

/-- Go `strconv.ParseFloat(s, 64)`; `none` is `err != nil` (a syntax error, or
a range error for a value that rounds beyond the largest double).  A
well-formed number is rounded to the nearest double, ties to even. -/
def ParseFloat (s : String) : Option F64 :=
  match special s.toList with
  | some (v, rest) => if rest = [] then some v else none
  | none =>
    match readFloat s.toList with
    | none => none
    | some r =>
      if r.rest ≠ [] then none
      else if r.underscores ∧ !underscoreOK s.toList then none
      else
        let base : Nat := if r.hex then 2 else 10
        let rounded :=
          if 0 ≤ r.exp then roundToF64 (r.mantissa * base ^ r.exp.toNat) 1
          else roundToF64 r.mantissa (base ^ (-r.exp).toNat)
        match rounded with
        | some k => some (.fin (signed r.neg k))
        | none => none

/-! ## `time.Parse` for the two layouts of the program -/

/-- Go `getnum(s, fixed)` of package time: one or two leading digits, exactly
two when `fixed`. -/
def getnum (s : List Char) (fixed : Bool) : Option (Nat × List Char) :=
  match s with
  | [] => none
  | [a] => if !isDigit a then none else if fixed then none else some (digitVal a, [])
  | a :: b :: rest =>
    if !isDigit a then none
    else if !isDigit b then (if fixed then none else some (digitVal a, b :: rest))
    else some (digitVal a * 10 + digitVal b, rest)

/-- Go `isLeap(year)`. -/
def isLeap (year : Nat) : Bool :=
  year % 4 = 0 && (year % 100 != 0 || year % 400 = 0)

/-- Go `daysIn(m, year)`: the number of days of month `m` (1 to 12). -/
def daysIn (m year : Nat) : Nat :=
  if m = 2 then (if isLeap year then 29 else 28)
  else if m = 4 ∨ m = 6 ∨ m = 9 ∨ m = 11 then 30
  else 31

/-- The fields of a parsed `time.Time` that the program reads. -/
structure Time where
  year : Nat
  month : Nat
  day : Nat
  hour : Nat
  minute : Nat
deriving DecidableEq, Repr

/-- Go `t.Day()`. -/
def Time.Day (t : Time) : Nat := t.day

/-- Go `t.Hour()`. -/
def Time.Hour (t : Time) : Nat := t.hour

/-- Go `time.Parse("2006-01-02", value)`; `none` is `err != nil`.  Four digits
of year, `-`, two digits of month (1 to 12), `-`, two digits of day, nothing
after; the day must exist in that month of that year. -/
def Parse_2006_01_02 (value : String) : Option Time :=
  match value.toList with
  | y1 :: y2 :: y3 :: y4 :: v1 =>
    if !(isDigit y1 && isDigit y2 && isDigit y3 && isDigit y4) then none else
    let year := ((digitVal y1 * 10 + digitVal y2) * 10 + digitVal y3) * 10 + digitVal y4
    match v1 with
    | sep1 :: v2 =>
      if sep1 ≠ '-' then none else
      match getnum v2 true with
      | none => none
      | some (month, v3) =>
        if month = 0 ∨ 12 < month then none else
        match v3 with
        | sep2 :: v4 =>
          if sep2 ≠ '-' then none else
          match getnum v4 true with
          | none => none
          | some (day, v5) =>
            if v5 ≠ [] then none
            else if day < 1 ∨ daysIn month year < day then none
            else some ⟨year, month, day, 0, 0⟩
        | [] => none
    | [] => none
  | _ => none

/-- Go `time.Parse("15:04", value)`; `none` is `err != nil`.  One or two digits
of hour (0 to 23), `:`, two digits of minute (0 to 59), nothing after. -/
def Parse_15_04 (value : String) : Option Time :=
  match getnum value.toList false with
  | none => none
  | some (hour, v1) =>
    if 24 ≤ hour then none else
    match v1 with
    | sep :: v2 =>
      if sep ≠ ':' then none else
      match getnum v2 true with
      | none => none
      | some (min, v3) =>
        if 60 ≤ min then none
        else if v3 ≠ [] then none
        else some ⟨0, 1, 1, hour, min⟩
    | [] => none

/-! ## The scoring engine (main.go, lines 45-91) -/

/-- Body of the loop over the items (lines 68-76): the running total after one
more item. -/
def itemStep (conv : F64 → Int) (points : Int) (item : Item) : Int :=
  let trimmedDesc := TrimSpace item.ShortDescription.toList
  if byteLen trimmedDesc % 3 = 0 then
    match ParseFloat item.Price with
    | some itemPrice => addInt points (floatToInt conv (Ceil (F64.mul itemPrice const02)))
    | none => points
  else points

/-- Go `calculatePoints(receipt)`, statement by statement. -/
def calculatePoints (conv : F64 → Int) (receipt : Receipt) : Int :=
  let points : Int := 0
  -- 1 point for every alphanumeric character in the retailer name
  let points := addInt points ((FindAllString alphaNum receipt.Retailer.toList).length : Int)
  -- 50 points if the total is a round dollar amount
  let total := ParseFloat receipt.Total
  let points :=
    match total with
    | some t => if F64.eq t (intToFloat (floatToInt conv t)) then addInt points 50 else points
    | none => points
  -- 25 points if the total is a multiple of 0.25
  let points :=
    match total with
    | some t => if F64.eq (Mod t const025) const0 then addInt points 25 else points
    | none => points
  -- 5 points for every two items
  let points := addInt points (mulInt ((receipt.Items.length : Int) / 2) 5)
  -- points for item description length and price
  let points := receipt.Items.foldl (itemStep conv) points
  -- 6 points if the day in purchase date is odd
  let points :=
    match Parse_2006_01_02 receipt.PurchaseDate with
    | some parsedDate => if parsedDate.Day % 2 ≠ 0 then addInt points 6 else points
    | none => points
  -- 10 points if the purchase time is between 2:00pm and 4:00pm
  let points :=
    match Parse_15_04 receipt.PurchaseTime with
    | some parsedTime => if parsedTime.Hour = 14 then addInt points 10 else points
    | none => points
  points

/-! ## The result store and the two handlers (main.go, lines 39-43, 93-139) -/

/-- Go `map[string]V`: a key is absent or bound to one value. -/
abbrev GoMap (V : Type) := String → Option V

/-- The map with `key` bound to `v` (`m[key] = v`). -/
def GoMap.set {V : Type} (m : GoMap V) (key : String) (v : V) : GoMap V :=
  fun k => if k = key then some v else m k

/-- The shared state: the package variables `receipts` and `points`. -/
structure Store where
  receipts : GoMap Receipt
  points : GoMap Int

/-- The state at start-up: both maps empty. -/
def Store.empty : Store := ⟨fun _ => none, fun _ => none⟩

/-- What a handler writes to the client. -/
inductive Response where
  | error (msg : String) (status : Nat) : Response
  | IDResponse (ID : String) : Response
  | PointsResponse (Points : Int) : Response
deriving DecidableEq, Repr

/-- Go `processReceiptHandler`.  `decode` stands for the JSON decoding of the
request body (`none`: the body is no receipt) and `receiptID` for the value
`uuid.New().String()` draws. -/
def processReceiptHandler (decode : String → Option Receipt) (conv : F64 → Int)
    (st : Store) (body : String) (receiptID : String) : Store × Response :=
  match decode body with
  | none => (st, .error "Invalid receipt" 400)
  | some receipt =>
    ({ receipts := st.receipts.set receiptID receipt,
       points := st.points.set receiptID (calculatePoints conv receipt) },
     .IDResponse receiptID)

/-- The receipt identifier `getPointsHandler` reads from the URL path (lines 121-124). -/
def pathReceiptID (path : String) : String :=
  let receiptID := TrimPrefix path.toList "/receipts/".toList
  if HasSuffix receiptID "/points".toList then String.mk (TrimSuffix receiptID "/points".toList)
  else String.mk receiptID

/-- The lookup of `getPointsHandler` once the identifier is known (lines 126-138). -/
def lookupPoints (st : Store) (receiptID : String) : Response :=
  match st.points receiptID with
  | none => .error "Receipt not found" 404
  | some receiptPoints => .PointsResponse receiptPoints

/-- Go `getPointsHandler` on the request path; the store is only read. -/
def getPointsHandler (st : Store) (path : String) : Response :=
  lookupPoints st (pathReceiptID path)

/-! ## Reachable states of the store -/

/-- The server handling a list of process requests in turn, each a body and the
identifier drawn for it: the final state and the responses. -/
def processAll (decode : String → Option Receipt) (conv : F64 → Int) (st : Store) :
    List (String × String) → Store × List Response
  | [] => (st, [])
  | (body, receiptID) :: rest =>
    let out := processReceiptHandler decode conv st body receiptID
    let later := processAll decode conv out.1 rest
    (later.1, out.2 :: later.2)

/-- The identifiers a list of responses issued. -/
def issuedIDs : List Response → List String
  | [] => []
  | .IDResponse ID :: rest => ID :: issuedIDs rest
  | _ :: rest => issuedIDs rest

/-! ## Requests served one after the other -/

/-- A request to the server: a process request (its body and the identifier
`uuid` draws for it) or a lookup request (its path). -/
inductive Request where
  | process (body receiptID : String) : Request
  | lookup (path : String) : Request
deriving DecidableEq, Repr

/-- The server handling one request: `processReceiptHandler` or
`getPointsHandler`, which only reads the store. -/
def serve (decode : String → Option Receipt) (conv : F64 → Int) (st : Store) :
    Request → Store × Response
  | .process body receiptID => processReceiptHandler decode conv st body receiptID
  | .lookup path => (st, getPointsHandler st path)

/-- The server handling a list of requests in turn: the final state and the
responses. -/
def serveAll (decode : String → Option Receipt) (conv : F64 → Int) (st : Store) :
    List Request → Store × List Response
  | [] => (st, [])
  | req :: rest =>
    let out := serve decode conv st req
    let later := serveAll decode conv out.1 rest
    (later.1, out.2 :: later.2)

/-- The request is a process request that is given the identifier `A`. -/
def Request.draws (A : String) : Request → Bool
  | .process _ receiptID => receiptID == A
  | .lookup _ => false

/-! ## The handlers as goroutines that share the store -/

/-- A goroutine serving one request: the statement of its handler it executes
next, with the local variables that are live there.  `net/http` runs every
request in a goroutine of its own.  The `proc` states are those of
`processReceiptHandler` (at lines 98, 105, 108, 109, 110, 111 and 114), the
`get` states those of `getPointsHandler` (at lines 121, 127, 128, 129 and 131).
`draw` is the value `uuid.New().String()` returns in this call. -/
inductive Goroutine where
  | procDecode (body draw : String) : Goroutine
  | procNewID (receipt : Receipt) (draw : String) : Goroutine
  | procLock (receipt : Receipt) (receiptID : String) : Goroutine
  | procStoreReceipt (receipt : Receipt) (receiptID : String) : Goroutine
  | procStorePoints (receipt : Receipt) (receiptID : String) : Goroutine
  | procUnlock (receiptID : String) : Goroutine
  | procRespond (receiptID : String) : Goroutine
  | getPath (path : String) : Goroutine
  | getLock (receiptID : String) : Goroutine
  | getRead (receiptID : String) : Goroutine
  | getUnlock (receiptPoints : Option Int) : Goroutine
  | getRespond (receiptPoints : Option Int) : Goroutine
  | done (resp : Response) : Goroutine
deriving DecidableEq, Repr

/-- One statement of a goroutine, on the shared store and the mutex `mu`
(`true`: locked): the new store, mutex and goroutine.  `none`: the goroutine
cannot move, because it waits in `mu.Lock()` or because its handler has
returned. -/
def Goroutine.step (decode : String → Option Receipt) (conv : F64 → Int) (st : Store)
    (mu : Bool) : Goroutine → Option (Store × Bool × Goroutine)
  | .procDecode body draw =>
    match decode body with
    | none => some (st, mu, .done (.error "Invalid receipt" 400))
    | some receipt => some (st, mu, .procNewID receipt draw)
  | .procNewID receipt draw => some (st, mu, .procLock receipt draw)
  | .procLock receipt receiptID =>
    if mu then none else some (st, true, .procStoreReceipt receipt receiptID)
  | .procStoreReceipt receipt receiptID =>
    some ({ st with receipts := st.receipts.set receiptID receipt }, mu,
      .procStorePoints receipt receiptID)
  | .procStorePoints receipt receiptID =>
    some ({ st with points := st.points.set receiptID (calculatePoints conv receipt) }, mu,
      .procUnlock receiptID)
  | .procUnlock receiptID => some (st, false, .procRespond receiptID)
  | .procRespond receiptID => some (st, mu, .done (.IDResponse receiptID))
  | .getPath path => some (st, mu, .getLock (pathReceiptID path))
  | .getLock receiptID => if mu then none else some (st, true, .getRead receiptID)
  | .getRead receiptID => some (st, mu, .getUnlock (st.points receiptID))
  | .getUnlock receiptPoints => some (st, false, .getRespond receiptPoints)
  | .getRespond receiptPoints =>
    match receiptPoints with
    | none => some (st, mu, .done (.error "Receipt not found" 404))
    | some p => some (st, mu, .done (.PointsResponse p))
  | .done _ => none

/-- The server at one moment: the two maps, the mutex `mu` and the goroutines
serving the requests in flight. -/
structure Server where
  store : Store
  mu : Bool
  goroutines : List Goroutine

/-- The goroutine of index `i` executes its next statement; `none` when it
cannot move. -/
def Server.step (decode : String → Option Receipt) (conv : F64 → Int) (s : Server) (i : Nat) :
    Option Server :=
  match s.goroutines[i]? with
  | none => none
  | some g =>
    match g.step decode conv s.store s.mu with
    | none => none
    | some (st, mu, g') => some ⟨st, mu, s.goroutines.set i g'⟩

/-- An execution: the scheduler picks one goroutine after the other, a pick of
a goroutine that cannot move being without effect.  Every interleaving of the
handlers is the run of some schedule. -/
def Server.run (decode : String → Option Receipt) (conv : F64 → Int) :
    Server → List Nat → Server
  | s, [] => s
  | s, i :: sched =>
    match s.step decode conv i with
    | none => Server.run decode conv s sched
    | some s' => Server.run decode conv s' sched

/-- The server with one more request in flight, a lookup on `path`. -/
def Server.lookup (s : Server) (path : String) : Server :=
  { s with goroutines := s.goroutines ++ [.getPath path] }

/-! ## The seven rules, one by one -/

/-- Points of the retailer rule (line 51). -/
def retailerPoints (retailer : String) : Int :=
  ((FindAllString alphaNum retailer.toList).length : Int)

/-- Points of the round-dollar rule (lines 54-57). -/
def roundDollarPoints (conv : F64 → Int) (total : String) : Int :=
  match ParseFloat total with
  | some t => if F64.eq t (intToFloat (floatToInt conv t)) then 50 else 0
  | none => 0

/-- Points of the quarter-multiple rule (lines 60-62). -/
def quarterPoints (total : String) : Int :=
  match ParseFloat total with
  | some t => if F64.eq (Mod t const025) const0 then 25 else 0
  | none => 0

/-- Points of the item-pair rule (line 65), before the reduction to `int`. -/
def pairPoints (n : Nat) : Int := ((n : Int) / 2) * 5

/-- Points one item adds in the loop of lines 68-76. -/
def itemPoints (conv : F64 → Int) (item : Item) : Int :=
  if byteLen (TrimSpace item.ShortDescription.toList) % 3 = 0 then
    match ParseFloat item.Price with
    | some itemPrice => floatToInt conv (Ceil (F64.mul itemPrice const02))
    | none => 0
  else 0

/-- Points of the odd-day rule (lines 79-82). -/
def dayPoints (date : String) : Int :=
  match Parse_2006_01_02 date with
  | some parsedDate => if parsedDate.Day % 2 ≠ 0 then 6 else 0
  | none => 0

/-- Points of the afternoon rule (lines 85-88). -/
def timePoints (time : String) : Int :=
  match Parse_15_04 time with
  | some parsedTime => if parsedTime.Hour = 14 then 10 else 0
  | none => 0

/-- Sum of the seven rules over the integers, without reduction to `int`. -/
def exactPoints (conv : F64 → Int) (r : Receipt) : Int :=
  retailerPoints r.Retailer + roundDollarPoints conv r.Total + quarterPoints r.Total
    + pairPoints r.Items.length + (r.Items.map (itemPoints conv)).sum
    + dayPoints r.PurchaseDate + timePoints r.PurchaseTime

/-! ## Notions the claims are stated with -/

/-- ASCII letter (a-z, A-Z) or digit (0-9). -/
def IsAsciiLetterOrDigit (c : Char) : Prop :=
  ('a' ≤ c ∧ c ≤ 'z') ∨ ('A' ≤ c ∧ c ≤ 'Z') ∨ ('0' ≤ c ∧ c ≤ '9')

instance (c : Char) : Decidable (IsAsciiLetterOrDigit c) := by
  unfold IsAsciiLetterOrDigit; infer_instance

/-- Number of ASCII letters and digits in a string. -/
def alnumCount (s : String) : Nat :=
  s.toList.countP (fun c => decide (IsAsciiLetterOrDigit c))

/-- The natural number has at most 53 significant bits: it is the numerator,
in units of `2^-1074`, of a value binary64 can hold (if below `2^2098`). -/
def Representable (k : Nat) : Prop := ∃ m e : Nat, m < 2 ^ 53 ∧ k = m * 2 ^ e

/-- The double is finite with zero fractional part. -/
def IsWhole (x : F64) : Prop := ∃ t : Int, x = .fin (t * (scale : Int))

instance (x : F64) : Decidable (IsWhole x) :=
  match x with
  | .nan => isFalse (by rintro ⟨n, h⟩; exact F64.noConfusion h)
  | .inf _ => isFalse (by rintro ⟨n, h⟩; exact F64.noConfusion h)
  | .fin k =>
    decidable_of_iff ((scale : Int) ∣ k)
      ⟨fun ⟨n, hn⟩ => ⟨n, by rw [hn, mul_comm]⟩,
       fun ⟨n, hn⟩ => ⟨n, by rw [F64.fin.inj hn, mul_comm]⟩⟩

/-- The double is a finite multiple of 0.25. -/
def IsMultipleOfQuarter (x : F64) : Prop :=
  ∃ n : Int, x = .fin (n * ((2 ^ 1072 : Nat) : Int))

instance (x : F64) : Decidable (IsMultipleOfQuarter x) :=
  match x with
  | .nan => isFalse (by rintro ⟨n, h⟩; exact F64.noConfusion h)
  | .inf _ => isFalse (by rintro ⟨n, h⟩; exact F64.noConfusion h)
  | .fin k =>
    decidable_of_iff (((2 ^ 1072 : Nat) : Int) ∣ k)
      ⟨fun ⟨n, hn⟩ => ⟨n, by rw [hn, mul_comm]⟩,
       fun ⟨n, hn⟩ => ⟨n, by rw [F64.fin.inj hn, mul_comm]⟩⟩

/-- The item is one the description rule looks at: the length in bytes of its
trimmed description is divisible by 3. -/
def DescriptionCounts (item : Item) : Prop :=
  byteLen (TrimSpace item.ShortDescription.toList) % 3 = 0

instance (item : Item) : Decidable (DescriptionCounts item) := by
  unfold DescriptionCounts; infer_instance

/-- The price does not parse, or parses to a finite number `p` with
`0 <= p < 2^63`. -/
def NonNegPrice (price : String) : Prop :=
  match ParseFloat price with
  | none => True
  | some (.fin k) => 0 ≤ k ∧ k < ((2 ^ 63 * scale : Nat) : Int)
  | some _ => False

instance (price : String) : Decidable (NonNegPrice price) := by
  unfold NonNegPrice; split <;> infer_instance

/-- The character of a decimal digit. -/
def digitChar (d : Nat) : Char := Char.ofNat (48 + d)

/-- A number below 100 written with two digits. -/
def twoDigits (n : Nat) : List Char := [digitChar (n / 10), digitChar (n % 10)]

/-- A number below 10000 written with four digits. -/
def fourDigits (n : Nat) : List Char :=
  [digitChar (n / 1000), digitChar (n / 100 % 10), digitChar (n / 10 % 10), digitChar (n % 10)]

/-- The string is the calendar date `year`-`month`-`day` written `YYYY-MM-DD`:
the month is 1 to 12 and the day exists in that month of that year. -/
def IsCalendarDate (s : String) (year month day : Nat) : Prop :=
  year ≤ 9999 ∧ 1 ≤ month ∧ month ≤ 12 ∧ 1 ≤ day ∧ day ≤ daysIn month year ∧
  s.toList = fourDigits year ++ '-' :: (twoDigits month ++ '-' :: twoDigits day)

/-- The string is the time of day `hour`:`minute` written `HH:MM`, 24-hour
clock: the hour is 0 to 23 and the minute 0 to 59, two digits each. -/
def IsClockTime (s : String) (hour minute : Nat) : Prop :=
  hour ≤ 23 ∧ minute ≤ 59 ∧ s.toList = twoDigits hour ++ ':' :: twoDigits minute

/-! ## What the goroutines keep true along every execution -/

/-- A receipt of five items; it scores 28 points. -/
def sampleReceipt : Receipt :=
  ⟨"Target", "2022-01-01", "13:01", "35.35",
    [⟨"Mountain Dew 12PK", "6.49"⟩, ⟨"Emils Cheese Pizza", "12.25"⟩,
     ⟨"Knorr Creamy Chicken", "1.26"⟩, ⟨"Doritos Nacho Cheese", "3.35"⟩,
     ⟨"   Klarbrunn 12-PK 12 FL OZ  ", "12.00"⟩]⟩

/-- A decoder for examples: the body `"target"` is the sample receipt, any
other body is malformed. -/
def sampleDecode (body : String) : Option Receipt :=
  if body = "target" then some sampleReceipt else none

/-- A receipt with nothing but the given items. -/
def itemsOnly (items : List Item) : Receipt := ⟨"", "", "", "", items⟩

/-- A receipt with nothing but a total. -/
def totalOnly (total : String) : Receipt := ⟨"", "", "", total, []⟩

/-- An item that earns no description points (description of length 2). -/
def plainItem : Item := ⟨"ab", "1.00"⟩

/-- An item whose price is `5 * 2^62`: it earns `2^62` points. -/
def hugeItem : Item := ⟨"", "23058430092136939520"⟩

/-- An item whose price is `5 * 2^62 - 4096`: it earns `2^62 - 512` points. -/
def nearHugeItem : Item := ⟨"", "23058430092136935424"⟩

/-- A receipt whose items earn `2^63 - 1` points in all: `2^62`, `2^62 - 512`
and `506` for the descriptions, `5` for the one pair. -/
def brimReceipt (retailer : String) : Receipt :=
  ⟨retailer, "", "", "", [hugeItem, nearHugeItem, ⟨"", "2530"⟩]⟩

/-- A receipt with one item of negative price. -/
def refundReceipt : Receipt := ⟨"", "", "", "", [⟨"abc", "-5.00"⟩]⟩

theorem wrapInt64_inRange (z : Int) : InRange (wrapInt64 z) := by
  unfold InRange wrapInt64 minInt64 maxInt64; omega

theorem wrapInt64_of_inRange {z : Int} (h : InRange z) : wrapInt64 z = z := by
  unfold InRange minInt64 maxInt64 at h; unfold wrapInt64; omega

theorem wrapInt64_add_left (a b : Int) : wrapInt64 (wrapInt64 a + b) = wrapInt64 (a + b) := by
  unfold wrapInt64; omega

theorem wrapInt64_add_right (a b : Int) : wrapInt64 (a + wrapInt64 b) = wrapInt64 (a + b) := by
  unfold wrapInt64; omega

theorem itemStep_eq (conv : F64 → Int) (p : Int) (item : Item) (hp : InRange p) :
    itemStep conv p item = wrapInt64 (p + itemPoints conv item) := by
  by_cases h : byteLen (TrimSpace item.ShortDescription.toList) % 3 = 0
  · cases hpf : ParseFloat item.Price with
    | none => simp only [itemStep, itemPoints, h, hpf, if_true, add_zero, wrapInt64_of_inRange hp]
    | some x => simp only [itemStep, itemPoints, h, hpf, if_true, addInt]
  · simp only [itemStep, itemPoints, h, if_false, add_zero, wrapInt64_of_inRange hp]

theorem foldl_itemStep (conv : F64 → Int) (items : List Item) (p : Int) (hp : InRange p) :
    items.foldl (itemStep conv) p = wrapInt64 (p + (items.map (itemPoints conv)).sum) := by
  induction items generalizing p with
  | nil => simp [wrapInt64_of_inRange hp]
  | cons it rest ih =>
    simp only [List.foldl_cons, List.map_cons, List.sum_cons]
    rw [itemStep_eq conv p it hp, ih _ (wrapInt64_inRange _), wrapInt64_add_left]
    congr 1; ring

theorem calculatePoints_eq_wrap (conv : F64 → Int) (r : Receipt) :
    calculatePoints conv r = wrapInt64 (exactPoints conv r) := by
  have hf : ∀ z : Int, r.Items.foldl (itemStep conv) (wrapInt64 z)
      = wrapInt64 (z + (r.Items.map (itemPoints conv)).sum) := by
    intro z
    rw [foldl_itemStep conv _ _ (wrapInt64_inRange _), wrapInt64_add_left]
  cases hT : ParseFloat r.Total <;> cases hD : Parse_2006_01_02 r.PurchaseDate <;>
    cases hP : Parse_15_04 r.PurchaseTime <;>
    simp only [calculatePoints, exactPoints, roundDollarPoints, quarterPoints, dayPoints,
      timePoints, retailerPoints, pairPoints, hT, hD, hP, addInt, mulInt] <;>
    (try split_ifs) <;>
    simp only [hf, wrapInt64_add_left, wrapInt64_add_right, add_zero, zero_add]

theorem calculatePoints_of_inRange (conv : F64 → Int) (r : Receipt)
    (h : InRange (exactPoints conv r)) : calculatePoints conv r = exactPoints conv r := by
  rw [calculatePoints_eq_wrap, wrapInt64_of_inRange h]

theorem sum_eq_zero_of_forall (l : List Int) (h : ∀ x ∈ l, x = 0) : l.sum = 0 := by
  induction l with
  | nil => rfl
  | cons a l ih =>
    rw [List.sum_cons, h a (List.mem_cons_self _ _), ih (fun x hx => h x (List.mem_cons_of_mem _ hx))]
    rfl

/-! ## The retailer pattern counts ASCII letters and digits -/

theorem alphaNum_eq (c : Char) : alphaNum c = decide (IsAsciiLetterOrDigit c) := by
  unfold alphaNum IsAsciiLetterOrDigit
  have h : ∀ a b : Char, a ≤ b ↔ a.toNat ≤ b.toNat := fun a b => Iff.rfl
  simp only [h]
  have e1 : 'a'.toNat = 97 := rfl
  have e2 : 'z'.toNat = 122 := rfl
  have e3 : 'A'.toNat = 65 := rfl
  have e4 : 'Z'.toNat = 90 := rfl
  have e5 : '0'.toNat = 48 := rfl
  have e6 : '9'.toNat = 57 := rfl
  simp only [e1, e2, e3, e4, e5, e6]
  simp [Bool.decide_or, Bool.decide_and, Bool.or_assoc]

theorem length_FindAllString (cls : Char → Bool) (cs : List Char) :
    (FindAllString cls cs).length = cs.countP cls := by
  induction cs with
  | nil => rfl
  | cons c cs ih =>
    unfold FindAllString
    by_cases h : cls c = true
    · simp [h, ih]
    · simp [h, ih]

theorem retailerPoints_eq (retailer : String) :
    retailerPoints retailer = (alnumCount retailer : Int) := by
  unfold retailerPoints alnumCount
  rw [length_FindAllString]
  congr 2
  funext c
  exact alphaNum_eq c

/-! ## Rounding to binary64 -/

theorem scale_pos : 0 < scale := Nat.two_pow_pos _

theorem scale_eq_mul : scale = 36028797018963968 * 2 ^ 1019 := by
  unfold scale
  have : (36028797018963968 : Nat) = 2 ^ 55 := by norm_num
  rw [this, ← pow_add]

theorem bitLenAux_spec (lvl q : Nat) (hq : q < 2 ^ 2 ^ lvl) :
    q < 2 ^ bitLenAux lvl q ∧ (q ≠ 0 → 2 ^ (bitLenAux lvl q - 1) ≤ q) := by
  induction lvl generalizing q with
  | zero =>
    simp only [pow_zero, pow_one] at hq
    unfold bitLenAux
    interval_cases q <;> simp
  | succ lvl ih =>
    unfold bitLenAux
    by_cases h : q < 2 ^ 2 ^ lvl
    · simp only [h, if_true]; exact ih q h
    · simp only [h, if_false]
      have hpos : 0 < 2 ^ 2 ^ lvl := Nat.two_pow_pos _
      have hq' : q / 2 ^ 2 ^ lvl < 2 ^ 2 ^ lvl := by
        rw [Nat.div_lt_iff_lt_mul hpos, ← pow_add]
        have : 2 ^ (lvl + 1) = 2 ^ lvl + 2 ^ lvl := by rw [pow_succ]; ring
        rwa [this] at hq
      have hne : q / 2 ^ 2 ^ lvl ≠ 0 := by
        have : 1 ≤ q / 2 ^ 2 ^ lvl := (Nat.one_le_div_iff hpos).2 (Nat.le_of_not_lt h)
        omega
      obtain ⟨h1, h2⟩ := ih _ hq'
      have h2 := h2 hne
      constructor
      · rw [pow_add]
        calc q < (q / 2 ^ 2 ^ lvl + 1) * 2 ^ 2 ^ lvl := by
                have := Nat.lt_div_mul_add hpos (a := q)
                linarith [Nat.div_add_mod q (2 ^ 2 ^ lvl), Nat.mod_lt q hpos, Nat.mul_comm (q / 2 ^ 2 ^ lvl) (2 ^ 2 ^ lvl)]
          _ ≤ 2 ^ bitLenAux lvl (q / 2 ^ 2 ^ lvl) * 2 ^ 2 ^ lvl := Nat.mul_le_mul_right _ h1
          _ = 2 ^ 2 ^ lvl * 2 ^ bitLenAux lvl (q / 2 ^ 2 ^ lvl) := Nat.mul_comm _ _
      · intro _
        have hb : 1 ≤ bitLenAux lvl (q / 2 ^ 2 ^ lvl) := by
          by_contra hc
          have : bitLenAux lvl (q / 2 ^ 2 ^ lvl) = 0 := by omega
          rw [this] at h1
          simp at h1
          exact hne h1
        have : 2 ^ lvl + bitLenAux lvl (q / 2 ^ 2 ^ lvl) - 1
            = 2 ^ lvl + (bitLenAux lvl (q / 2 ^ 2 ^ lvl) - 1) := Nat.add_sub_assoc hb _
        rw [this, pow_add]
        calc 2 ^ 2 ^ lvl * 2 ^ (bitLenAux lvl (q / 2 ^ 2 ^ lvl) - 1)
            ≤ 2 ^ 2 ^ lvl * (q / 2 ^ 2 ^ lvl) := Nat.mul_le_mul_left _ h2
          _ ≤ q := Nat.mul_div_le q _

theorem lt_two_pow_bitLen (q : Nat) (hq : q < 2 ^ 4096) : q < 2 ^ bitLen q :=
  (bitLenAux_spec 12 q (by simpa using hq)).1

theorem two_pow_bitLen_le (q : Nat) (hq : q < 2 ^ 4096) (h0 : q ≠ 0) : 2 ^ (bitLen q - 1) ≤ q :=
  (bitLenAux_spec 12 q (by simpa using hq)).2 h0

theorem roundHalfEven_ge (a b : Nat) : a / b ≤ roundHalfEven a b := by
  unfold roundHalfEven
  simp only []
  split_ifs <;> omega

theorem roundHalfEven_le (a b : Nat) : roundHalfEven a b ≤ a / b + 1 := by
  unfold roundHalfEven
  simp only []
  split_ifs <;> omega

theorem roundHalfEven_of_dvd (a b : Nat) (hb : 0 < b) (h : b ∣ a) :
    roundHalfEven a b = a / b := by
  unfold roundHalfEven
  have : a % b = 0 := Nat.mod_eq_zero_of_dvd h
  simp [this, hb]

/-- Below the midpoint above `M`, rounding gives at most `M`. -/
theorem roundHalfEven_le_of_lt (a b M : Nat) (hb : 0 < b) (h : 2 * a < (2 * M + 1) * b) :
    roundHalfEven a b ≤ M := by
  have hdm := Nat.div_add_mod a b
  have hml := Nat.mod_lt a hb
  have hq : a / b ≤ M := by
    by_contra hc
    have : (M + 1) * b ≤ a / b * b := Nat.mul_le_mul_right b (by omega)
    have h3 : a / b * b ≤ a := Nat.div_mul_le_self a b
    nlinarith
  unfold roundHalfEven
  simp only []
  split_ifs with h1 h2 h3
  · exact hq
  · by_contra hc
    have hM : a / b = M := by omega
    rw [hM] at hdm
    nlinarith
  · exact hq
  · by_contra hc
    have hM : a / b = M := by omega
    rw [hM] at hdm
    have : 2 * (a % b) = b := by omega
    nlinarith

/-- Above the midpoint above `M`, rounding gives at least `M + 1`. -/
theorem roundHalfEven_ge_of_lt (a b M : Nat) (hb : 0 < b) (h : (2 * M + 1) * b < 2 * a) :
    M + 1 ≤ roundHalfEven a b := by
  have hdm := Nat.div_add_mod a b
  have hml := Nat.mod_lt a hb
  have hq : M ≤ a / b := by
    by_contra hc
    have : (a / b + 1) * b ≤ M * b := Nat.mul_le_mul_right b (by omega)
    nlinarith
  unfold roundHalfEven
  simp only []
  by_cases hM : a / b = M
  · rw [hM] at hdm
    have : b < 2 * (a % b) := by nlinarith
    have h1 : ¬ 2 * (a % b) < b := by omega
    simp [h1, this, hM]
  · have : M + 1 ≤ a / b := by omega
    split_ifs <;> omega

theorem roundHalfEven_mul_right (a b z : Nat) (hz : 0 < z) :
    roundHalfEven (a * z) (b * z) = roundHalfEven a b := by
  unfold roundHalfEven
  have h1 : a * z / (b * z) = a / b := Nat.mul_div_mul_right a b hz
  have h2 : a * z % (b * z) = a % b * z := by
    rw [Nat.mul_comm a z, Nat.mul_comm b z, Nat.mul_mod_mul_left, Nat.mul_comm]
  simp only [h1, h2]
  have e1 : (2 * (a % b * z) < b * z) ↔ (2 * (a % b) < b) := by
    constructor
    · intro h; by_contra hc
      have : b * z ≤ 2 * (a % b) * z := Nat.mul_le_mul_right z (by omega)
      nlinarith
    · intro h
      have : 2 * (a % b) * z < b * z := Nat.mul_lt_mul_of_pos_right h hz
      nlinarith
  have e2 : (b * z < 2 * (a % b * z)) ↔ (b < 2 * (a % b)) := by
    constructor
    · intro h; by_contra hc
      have : 2 * (a % b) * z ≤ b * z := Nat.mul_le_mul_right z (by omega)
      nlinarith
    · intro h
      have : b * z < 2 * (a % b) * z := Nat.mul_lt_mul_of_pos_right h hz
      nlinarith
  simp only [e1, e2]

theorem roundToF64_eq_some (n d k : Nat) (h : roundToF64 n d = some k) :
    n * scale / d < 2 ^ 2098 ∧ k < 2 ^ 2098 ∧
    k = roundHalfEven (n * scale) (d * 2 ^ (bitLen (n * scale / d) - 53))
          * 2 ^ (bitLen (n * scale / d) - 53) := by
  unfold roundToF64 at h
  simp only [] at h
  split_ifs at h with h1 h2
  · simp only [Option.some.injEq] at h
    exact ⟨by omega, by omega, h.symm⟩

theorem roundToF64_eq (n d q J R : Nat) (hq : n * scale / d = q) (hqlt : q < 2 ^ 2098)
    (hJ : 2 ^ (bitLen q - 53) = J) (hR : roundHalfEven (n * scale) (d * J) = R)
    (hlt : R * J < 2 ^ 2098) : roundToF64 n d = some (R * J) := by
  unfold roundToF64
  simp only [hq, hJ, hR]
  rw [if_neg (Nat.not_le.2 hqlt), if_pos hlt]

theorem div_step_lt (q : Nat) (hq : q < 2 ^ 2098) : q / 2 ^ (bitLen q - 53) < 2 ^ 53 := by
  have h1 := lt_two_pow_bitLen q (lt_of_lt_of_le hq (Nat.pow_le_pow_right (by norm_num) (by norm_num)))
  rw [Nat.div_lt_iff_lt_mul (Nat.two_pow_pos _), ← pow_add]
  refine lt_of_lt_of_le h1 (Nat.pow_le_pow_right (by norm_num) (by omega))

theorem roundToF64_representable (n d k : Nat) (h : roundToF64 n d = some k) :
    Representable k := by
  obtain ⟨hq, _, hk⟩ := roundToF64_eq_some n d k h
  have hm := roundHalfEven_le (n * scale) (d * 2 ^ (bitLen (n * scale / d) - 53))
  rw [← Nat.div_div_eq_div_mul] at hm
  have hlt := div_step_lt _ hq
  by_cases hc : roundHalfEven (n * scale) (d * 2 ^ (bitLen (n * scale / d) - 53)) < 2 ^ 53
  · exact ⟨_, _, hc, hk⟩
  · have : roundHalfEven (n * scale) (d * 2 ^ (bitLen (n * scale / d) - 53)) = 2 ^ 53 := by omega
    rw [this] at hk
    refine ⟨2 ^ 52, bitLen (n * scale / d) - 53 + 1, by norm_num, ?_⟩
    rw [hk, pow_succ]; ring

/-- Rounding an integer gives an integer-valued double. -/
theorem roundToF64_int_dvd (z k : Nat) (h : roundToF64 z 1 = some k) : scale ∣ k := by
  obtain ⟨_, _, hk⟩ := roundToF64_eq_some z 1 k h
  simp only [Nat.div_one, one_mul] at hk
  rcases Nat.le_total (bitLen (z * scale) - 53) 1074 with hj | hj
  · have hdvd : 2 ^ (bitLen (z * scale) - 53) ∣ z * scale :=
      Dvd.dvd.mul_left (by unfold scale; exact Nat.pow_dvd_pow 2 hj) z
    rw [roundHalfEven_of_dvd _ _ (Nat.two_pow_pos _) hdvd, Nat.div_mul_cancel hdvd] at hk
    rw [hk]; exact Dvd.intro_left z rfl
  · rw [hk]
    exact Dvd.dvd.mul_left (by unfold scale; exact Nat.pow_dvd_pow 2 hj) _

/-- A representable value is its own rounding. -/
theorem roundToF64_of_representable (t : Nat) (hr : Representable (t * scale))
    (hlt : t * scale < 2 ^ 2098) : roundToF64 t 1 = some (t * scale) := by
  obtain ⟨m, e, hm, hk⟩ := hr
  have hdvd : 2 ^ (bitLen (t * scale) - 53) ∣ t * scale := by
    by_cases h0 : t * scale = 0
    · rw [h0]; exact Nat.dvd_zero _
    · have h1 := two_pow_bitLen_le (t * scale)
        (lt_of_lt_of_le hlt (Nat.pow_le_pow_right (by norm_num) (by norm_num))) h0
      have h2 : t * scale < 2 ^ (53 + e) := by
        rw [hk, pow_add]; exact Nat.mul_lt_mul_of_pos_right hm (Nat.two_pow_pos _)
      have h3 : bitLen (t * scale) - 1 < 53 + e :=
        (Nat.pow_lt_pow_iff_right (by norm_num)).1 (lt_of_le_of_lt h1 h2)
      have h4 : bitLen (t * scale) - 53 ≤ e := by omega
      conv_rhs => rw [hk]
      exact Dvd.dvd.mul_left (Nat.pow_dvd_pow 2 h4) m
  unfold roundToF64
  simp only [Nat.div_one, one_mul]
  rw [roundHalfEven_of_dvd _ _ (Nat.two_pow_pos _) hdvd, Nat.div_mul_cancel hdvd,
    if_neg (Nat.not_le.2 hlt), if_pos hlt]

theorem roundToF64_of_small (n d : Nat) (hq : n * scale / d < 2 ^ 2097) :
    ∃ k, roundToF64 n d = some k ∧ k ≤ 2 * (n * scale / d) + 1 := by
  have hq4 : n * scale / d < 2 ^ 4096 :=
    lt_of_lt_of_le hq (Nat.pow_le_pow_right (by norm_num) (by norm_num))
  have hstep : 2 ^ (bitLen (n * scale / d) - 53) ≤ n * scale / d + 1 := by
    by_cases hb : bitLen (n * scale / d) ≤ 53
    · have : bitLen (n * scale / d) - 53 = 0 := by omega
      rw [this]; simp
    · have h0 : n * scale / d ≠ 0 := by
        intro h0; rw [h0] at hb; exact hb (by decide)
      have h1 := two_pow_bitLen_le _ hq4 h0
      have h2 : 2 ^ (bitLen (n * scale / d) - 53) ≤ 2 ^ (bitLen (n * scale / d) - 1) :=
        Nat.pow_le_pow_right (by norm_num) (by omega)
      omega
  have hm := roundHalfEven_le (n * scale) (d * 2 ^ (bitLen (n * scale / d) - 53))
  rw [← Nat.div_div_eq_div_mul] at hm
  have hk : roundHalfEven (n * scale) (d * 2 ^ (bitLen (n * scale / d) - 53))
      * 2 ^ (bitLen (n * scale / d) - 53) ≤ 2 * (n * scale / d) + 1 := by
    calc _ ≤ (n * scale / d / 2 ^ (bitLen (n * scale / d) - 53) + 1)
              * 2 ^ (bitLen (n * scale / d) - 53) := Nat.mul_le_mul_right _ hm
      _ = n * scale / d / 2 ^ (bitLen (n * scale / d) - 53) * 2 ^ (bitLen (n * scale / d) - 53)
            + 2 ^ (bitLen (n * scale / d) - 53) := by ring
      _ ≤ n * scale / d + (n * scale / d + 1) :=
          Nat.add_le_add (Nat.div_mul_le_self _ _) hstep
      _ = 2 * (n * scale / d) + 1 := by ring
  have h98 : (2:Nat) ^ 2098 = 2 * 2 ^ 2097 := by rw [← pow_succ']
  refine ⟨_, ?_, hk⟩
  unfold roundToF64
  simp only []
  rw [if_neg (by omega), if_pos (by omega)]

theorem special_not_fin (s rest : List Char) (k : Int) : special s ≠ some (.fin k, rest) := by
  unfold special
  intro h
  split at h
  · exact Option.noConfusion h
  · simp only [] at h
    split_ifs at h <;> simp at h

theorem natAbs_signed (neg : Bool) (k : Nat) : (signed neg k).natAbs = k := by
  unfold signed; cases neg <;> simp

theorem ParseFloat_fin (s : String) (k : Int) (h : ParseFloat s = some (.fin k)) :
    Representable k.natAbs ∧ k.natAbs < 2 ^ 2098 := by
  have key : ∀ (n d : Nat) (neg : Bool),
      (match roundToF64 n d with
        | some k => some (F64.fin (signed neg k))
        | none => none) = some (F64.fin k) →
      Representable k.natAbs ∧ k.natAbs < 2 ^ 2098 := by
    intro n d neg h
    split at h
    · rename_i k' hk'
      simp only [Option.some.injEq, F64.fin.injEq] at h
      rw [← h, natAbs_signed]
      exact ⟨roundToF64_representable _ _ _ hk', (roundToF64_eq_some _ _ _ hk').2.1⟩
    · exact Option.noConfusion h
  unfold ParseFloat at h
  split at h
  · rename_i v rest hs
    split_ifs at h
    simp only [Option.some.injEq] at h
    rw [h] at hs
    exact absurd hs (special_not_fin _ _ _)
  · split at h
    · exact Option.noConfusion h
    · rename_i r hr
      simp only [] at h
      split_ifs at h <;> exact key _ _ _ h

/-! ## Conversions between `int` and `float64`, and the two tests on the total -/

theorem floatToInt_inRange (conv : F64 → Int) (x : F64) : InRange (floatToInt conv x) := by
  unfold floatToInt
  split
  · split_ifs with h
    · exact h
    · exact wrapInt64_inRange _
  · exact wrapInt64_inRange _

theorem truncToInt_mul (t : Int) : truncToInt (t * scale) = t := by
  have hs : (0:Int) < scale := by exact_mod_cast scale_pos
  unfold truncToInt
  split_ifs with h
  · exact Int.mul_ediv_cancel _ (ne_of_gt hs)
  · rw [← Int.neg_mul, Int.mul_ediv_cancel _ (ne_of_gt hs)]; simp

/-- The double of an `int` is finite and integer-valued. -/
theorem intToFloat_int (z : Int) (hz : InRange z) :
    ∃ k : Int, intToFloat z = .fin k ∧ (scale : Int) ∣ k := by
  have hq : z.natAbs * scale / 1 < 2 ^ 2097 := by
    rw [Nat.div_one]
    have h1 : z.natAbs ≤ 2 ^ 63 := by
      unfold InRange minInt64 maxInt64 at hz; omega
    calc z.natAbs * scale ≤ 2 ^ 63 * scale := Nat.mul_le_mul_right _ h1
      _ = 2 ^ 1137 := by unfold scale; rw [← pow_add]
      _ < 2 ^ 2097 := Nat.pow_lt_pow_right (by norm_num) (by norm_num)
  obtain ⟨k, hk, _⟩ := roundToF64_of_small _ _ hq
  have hd := roundToF64_int_dvd _ _ hk
  refine ⟨signed (decide (z < 0)) k, by unfold intToFloat; rw [hk], ?_⟩
  unfold signed
  split_ifs
  · exact (Int.dvd_neg).2 (Int.natCast_dvd_natCast.2 hd)
  · exact Int.natCast_dvd_natCast.2 hd

theorem intToFloat_natAbs_le (z : Int) (hz : InRange z) :
    ∃ k : Int, intToFloat z = .fin k ∧ k.natAbs ≤ 2 ^ 64 * scale + 1 := by
  have h1 : z.natAbs ≤ 2 ^ 63 := by
    unfold InRange minInt64 maxInt64 at hz; omega
  have hq : z.natAbs * scale / 1 < 2 ^ 2097 := by
    rw [Nat.div_one]
    calc z.natAbs * scale ≤ 2 ^ 63 * scale := Nat.mul_le_mul_right _ h1
      _ = 2 ^ 1137 := by unfold scale; rw [← pow_add]
      _ < 2 ^ 2097 := Nat.pow_lt_pow_right (by norm_num) (by norm_num)
  obtain ⟨k, hk, hle⟩ := roundToF64_of_small _ _ hq
  refine ⟨signed (decide (z < 0)) k, by unfold intToFloat; rw [hk], ?_⟩
  rw [natAbs_signed]
  rw [Nat.div_one] at hle
  have : z.natAbs * scale ≤ 2 ^ 63 * scale := Nat.mul_le_mul_right _ h1
  have e : 2 * (2 ^ 63 * scale) = 2 ^ 64 * scale := by ring
  omega

theorem eq_true_iff (x y : F64) : F64.eq x y = true ↔ x = y ∧ x ≠ .nan := by
  cases x <;> cases y <;> simp [F64.eq]

/-- The round-dollar test of line 55 holds only for integer-valued finite totals. -/
theorem roundDollar_test_imp (conv : F64 → Int) (x : F64)
    (h : F64.eq x (intToFloat (floatToInt conv x)) = true) :
    ∃ k : Int, x = .fin k ∧ (scale : Int) ∣ k := by
  obtain ⟨k, hk, hd⟩ := intToFloat_int _ (floatToInt_inRange conv x)
  rw [hk] at h
  exact ⟨k, ((eq_true_iff _ _).1 h).1, hd⟩

/-- The round-dollar test of line 55 holds for an integer-valued total within
the range of `int`. -/
theorem roundDollar_test_of_int (conv : F64 → Int) (t : Int) (ht : InRange t)
    (hrep : Representable (t * scale).natAbs) :
    F64.eq (.fin (t * scale)) (intToFloat (floatToInt conv (.fin (t * scale)))) = true := by
  have hf : floatToInt conv (.fin (t * scale)) = t := by
    unfold floatToInt
    simp only [truncToInt_mul]
    exact if_pos ht
  have habs : (t * (scale : Int)).natAbs = t.natAbs * scale := by
    rw [Int.natAbs_mul, Int.natAbs_ofNat]
  rw [habs] at hrep
  have hlt : t.natAbs * scale < 2 ^ 2098 := by
    have h1 : t.natAbs ≤ 2 ^ 63 := by
      unfold InRange minInt64 maxInt64 at ht; omega
    calc t.natAbs * scale ≤ 2 ^ 63 * scale := Nat.mul_le_mul_right _ h1
      _ = 2 ^ 1137 := by unfold scale; rw [← pow_add]
      _ < 2 ^ 2098 := Nat.pow_lt_pow_right (by norm_num) (by norm_num)
  have hr := roundToF64_of_representable _ hrep hlt
  have hi : intToFloat t = .fin (t * scale) := by
    unfold intToFloat
    rw [hr]
    simp only [signed, F64.fin.injEq]
    split_ifs with hneg
    · simp only [decide_eq_true_eq] at hneg
      rw [Nat.cast_mul, Int.ofNat_natAbs_of_nonpos (le_of_lt hneg)]; ring
    · simp only [decide_eq_true_eq, not_lt] at hneg
      rw [Nat.cast_mul, Int.natAbs_of_nonneg hneg]
  rw [hf, hi]
  simp [F64.eq]

/-- The round-dollar test of line 55 fails for every total beyond `2^64 + 1`,
whatever the platform makes of the out-of-range conversion. -/
theorem roundDollar_test_of_large (conv : F64 → Int) (k : Int)
    (hk : 2 ^ 64 * scale + 1 < k.natAbs) :
    F64.eq (.fin k) (intToFloat (floatToInt conv (.fin k))) = false := by
  obtain ⟨k', hk', hle⟩ := intToFloat_natAbs_le _ (floatToInt_inRange conv (.fin k))
  rw [hk']
  by_contra hc
  rw [Bool.not_eq_false, eq_true_iff] at hc
  simp only [F64.fin.injEq] at hc
  rw [hc.1] at hk
  omega

theorem roundDollar_test_isWhole (conv : F64 → Int) (x : F64)
    (h : F64.eq x (intToFloat (floatToInt conv x)) = true) : IsWhole x := by
  obtain ⟨k, hx, t, ht⟩ := roundDollar_test_imp conv x h
  exact ⟨t, by rw [hx, ht, mul_comm]⟩

/-- The quarter test of line 60 holds exactly for the finite multiples of 0.25. -/
theorem quarter_test_iff (x : F64) :
    F64.eq (Mod x const025) const0 = true ↔ ∃ k : Int, x = .fin k ∧ ((2 ^ 1072 : Nat) : Int) ∣ k := by
  cases x with
  | nan => simp [Mod, F64.eq]
  | inf b => simp [Mod, F64.eq]
  | fin a =>
    have hp : ((2 ^ 1072 : Nat) : Int) ≠ 0 := by
      exact_mod_cast (ne_of_gt (Nat.two_pow_pos 1072))
    simp only [Mod, const025, const0, hp, if_false, Int.natAbs_ofNat, eq_true_iff, F64.fin.injEq,
      ne_eq, not_false_eq_true, and_true, exists_eq_left', reduceCtorEq]
    split_ifs with h
    · exact Int.dvd_iff_emod_eq_zero.symm
    · rw [neg_eq_zero, ← Int.dvd_iff_emod_eq_zero, Int.dvd_neg]

theorem quarter_test_iff_multiple (x : F64) :
    F64.eq (Mod x const025) const0 = true ↔ IsMultipleOfQuarter x := by
  rw [quarter_test_iff]
  unfold IsMultipleOfQuarter
  constructor
  · rintro ⟨k, hx, n, hn⟩
    exact ⟨n, by rw [hx, hn, mul_comm]⟩
  · rintro ⟨n, hx⟩
    exact ⟨_, hx, Dvd.intro_left n rfl⟩

theorem isWhole_isMultipleOfQuarter (x : F64) (h : IsWhole x) : IsMultipleOfQuarter x := by
  obtain ⟨t, ht⟩ := h
  refine ⟨t * 4, ?_⟩
  rw [ht]
  congr 1
  have : (scale : Int) = 4 * ((2 ^ 1072 : Nat) : Int) := by
    unfold scale
    have : (2:Nat) ^ 1074 = 4 * 2 ^ 1072 := by
      rw [show (1074:Nat) = 2 + 1072 from rfl, pow_add]; norm_num
    exact_mod_cast this
  rw [this]; ring

theorem roundDollarPoints_of_whole (conv : F64 → Int) (total : String) (t : Int)
    (hparse : ParseFloat total = some (.fin (t * (scale : Int)))) (hrange : InRange t) :
    roundDollarPoints conv total = 50 := by
  unfold roundDollarPoints
  rw [hparse]
  simp only [roundDollar_test_of_int conv t hrange (ParseFloat_fin _ _ hparse).1, if_true]

theorem quarterPoints_of_whole (total : String) (t : Int)
    (hparse : ParseFloat total = some (.fin (t * (scale : Int)))) :
    quarterPoints total = 25 := by
  unfold quarterPoints
  rw [hparse]
  have : F64.eq (Mod (.fin (t * (scale : Int))) const025) const0 = true := by
    rw [quarter_test_iff]
    refine ⟨_, rfl, ?_⟩
    refine Dvd.dvd.mul_left ?_ t
    unfold scale
    exact_mod_cast Nat.pow_dvd_pow 2 (by norm_num : 1072 ≤ 1074)
  simp only [this, if_true]

/-! ## The product of a price with `0.2` and its ceiling -/

theorem const02_eq : const02 = .fin ((7205759403792794 * 2 ^ 1019 : Nat) : Int) := rfl

theorem fin_mul_const02 (k k' : Nat)
    (h : roundToF64 (k * (7205759403792794 * 2 ^ 1019)) (scale * scale) = some k') :
    F64.mul (.fin (k : Int)) const02 = .fin (k' : Int) := by
  rw [const02_eq]
  unfold F64.mul
  simp only [Int.natAbs_ofNat]
  rw [h]
  have h1 : decide ((k : Int) < 0) = false := by simp
  have h2 : decide ((((7205759403792794 * 2 ^ 1019 : Nat)) : Int) < 0) = false := by
    rw [decide_eq_false_iff_not, not_lt]; exact Int.ofNat_nonneg _
  rw [h1, h2]
  rfl

theorem fin_neg_mul_const02 (a k' : Nat) (ha : 0 < a)
    (h : F64.mul (.fin (a : Int)) const02 = .fin (k' : Int)) :
    F64.mul (.fin (-(a : Int))) const02 = .fin (-(k' : Int)) := by
  rw [const02_eq] at h ⊢
  unfold F64.mul at h ⊢
  simp only [Int.natAbs_ofNat, Int.natAbs_neg] at h ⊢
  have h1 : decide ((a : Int) < 0) = false := by simp
  have h1' : decide (-(a : Int) < 0) = true := by simp; exact ha
  have h2 : decide ((((7205759403792794 * 2 ^ 1019 : Nat)) : Int) < 0) = false := by
    rw [decide_eq_false_iff_not, not_lt]; exact Int.ofNat_nonneg _
  rw [h1, h2] at h
  rw [h1', h2]
  split at h
  · rename_i kk hkk
    simp only [signed, bne_self_eq_false, Bool.false_eq_true, if_false, F64.fin.injEq] at h
    simp only [signed, Bool.true_bne, Bool.not_false, if_true, F64.fin.injEq]
    rw [h]
  · exact F64.noConfusion h

/-- The product of a non-negative price below `2^63` with `0.2` is a finite
non-negative double below `2^62 + 1`. -/
theorem mul_const02_of_nonneg (k : Nat) (hk : k < 2 ^ 63 * scale) :
    ∃ k' : Nat, F64.mul (.fin (k : Int)) const02 = .fin (k' : Int) ∧ k' ≤ 2 ^ 1136 + 1 := by
  have hq : k * (7205759403792794 * 2 ^ 1019) * scale / (scale * scale) < 2 ^ 1135 := by
    rw [Nat.mul_div_mul_right _ _ scale_pos, Nat.div_lt_iff_lt_mul scale_pos]
    have hC : 7205759403792794 * 2 ^ 1019 < 2 ^ 1072 := by
      have : (2:Nat) ^ 1072 = 2 ^ 53 * 2 ^ 1019 := by rw [← pow_add]
      rw [this]
      exact Nat.mul_lt_mul_of_pos_right (by norm_num) (Nat.two_pow_pos _)
    calc k * (7205759403792794 * 2 ^ 1019) ≤ k * 2 ^ 1072 := Nat.mul_le_mul_left _ (le_of_lt hC)
      _ < 2 ^ 63 * scale * 2 ^ 1072 := Nat.mul_lt_mul_of_pos_right hk (Nat.two_pow_pos _)
      _ = 2 ^ 1135 * scale := by ring
  have hq' : k * (7205759403792794 * 2 ^ 1019) * scale / (scale * scale) < 2 ^ 2097 :=
    lt_of_lt_of_le hq (Nat.pow_le_pow_right (by norm_num) (by norm_num))
  obtain ⟨k', hk', hle⟩ := roundToF64_of_small _ _ hq'
  refine ⟨k', ?_, ?_⟩
  · rw [const02_eq]
    unfold F64.mul
    simp only [Int.natAbs_ofNat]
    rw [hk']
    have h1 : decide ((k : Int) < 0) = false := by simp
    have h2 : decide ((((7205759403792794 * 2 ^ 1019 : Nat)) : Int) < 0) = false := by
      rw [decide_eq_false_iff_not, not_lt]; exact Int.ofNat_nonneg _
    rw [h1, h2]
    rfl
  · have e : (2:Nat) ^ 1136 = 2 * 2 ^ 1135 := by rw [← pow_succ']
    omega

/-- The ceiling of a non-negative double, converted to `int`, when it fits. -/
theorem floatToInt_Ceil_nat (conv : F64 → Int) (k' : Nat) (hk' : k' ≤ 2 ^ 1136 + 1) :
    floatToInt conv (Ceil (.fin (k' : Int))) = -((-(k' : Int)) / (scale : Int)) ∧
    0 ≤ -((-(k' : Int)) / (scale : Int)) ∧ -((-(k' : Int)) / (scale : Int)) ≤ 2 ^ 62 + 1 := by
  have hs : (0:Int) < scale := by exact_mod_cast scale_pos
  have h0 : 0 ≤ -((-(k' : Int)) / (scale : Int)) := by
    have : (-(k' : Int)) / (scale : Int) ≤ 0 :=
      Int.ediv_le_of_le_mul hs (by simp)
    omega
  have h1 : -((-(k' : Int)) / (scale : Int)) ≤ 2 ^ 62 + 1 := by
    have : -(2 ^ 62 + 1 : Int) ≤ (-(k' : Int)) / (scale : Int) := by
      rw [Int.le_ediv_iff_mul_le hs]
      have e : ((2:Nat) ^ 1136 : Nat) = 2 ^ 62 * scale := by unfold scale; rw [← pow_add]
      have hk'' : (k' : Int) ≤ ((2 ^ 1136 + 1 : Nat) : Int) := by exact_mod_cast hk'
      have hs1 : (1 : Int) ≤ scale := hs
      push_cast at hk'' e ⊢
      nlinarith
    omega
  refine ⟨?_, h0, h1⟩
  unfold Ceil floatToInt
  simp only [truncToInt_mul]
  rw [if_pos]
  constructor
  · unfold minInt64; omega
  · unfold maxInt64
    have : (2:Int) ^ 62 = 4611686018427387904 := by norm_num
    omega

theorem itemPoints_nonneg (conv : F64 → Int) (item : Item)
    (h : DescriptionCounts item → NonNegPrice item.Price) : 0 ≤ itemPoints conv item := by
  unfold itemPoints
  by_cases hd : byteLen (TrimSpace item.ShortDescription.toList) % 3 = 0
  · rw [if_pos hd]
    have hp := h hd
    unfold NonNegPrice at hp
    split
    · rename_i x hx
      rw [hx] at hp
      cases x with
      | nan => exact absurd hp (by simp)
      | inf b => exact absurd hp (by simp)
      | fin k =>
        simp only [] at hp
        obtain ⟨k0, hk0⟩ := Int.eq_ofNat_of_zero_le hp.1
        subst hk0
        obtain ⟨k', hmul, hle⟩ := mul_const02_of_nonneg k0 (by exact_mod_cast hp.2)
        rw [hmul, (floatToInt_Ceil_nat conv k' hle).1]
        exact (floatToInt_Ceil_nat conv k' hle).2.1
    · exact le_refl _
  · rw [if_neg hd]

theorem itemPoints_inRange (conv : F64 → Int) (item : Item) : InRange (itemPoints conv item) := by
  unfold itemPoints
  split_ifs
  · split
    · exact floatToInt_inRange conv _
    · decide
  · decide

/-- Rounding `k * 0.2` (the double `0.2` is `7205759403792794 / 2^55`) does not
pass the whole number `T * m` in units of `J`, for `k <= 5 * (T * J) * m`. -/
theorem round_mul02_le (k T J m : Nat) (hJ : 0 < J) (hk : k ≤ 5 * (T * J) * m)
    (hq : k * 7205759403792794 / 36028797018963968 < 2 ^ 53 * J) :
    roundHalfEven (k * 7205759403792794) (36028797018963968 * J) ≤ T * m := by
  by_cases h : T * J * m ≤ k * 7205759403792794 / 36028797018963968
  · have h1 : T * m * J < 2 ^ 53 * J := by
      calc T * m * J = T * J * m := by ring
        _ ≤ _ := h
        _ < _ := hq
    have h2 : T * m < 2 ^ 53 := Nat.lt_of_mul_lt_mul_right h1
    have h3 : 4 * (T * m * J) + 4 * J ≤ 36028797018963968 * J := by
      have : (T * m + 1) * J ≤ 2 ^ 53 * J := Nat.mul_le_mul_right J h2
      have e : (2:Nat) ^ 53 = 9007199254740992 := by norm_num
      rw [e] at this
      linarith
    apply roundHalfEven_le_of_lt _ _ _ (Nat.mul_pos (by norm_num) hJ)
    have hk' : k ≤ 5 * (T * m * J) := by
      calc k ≤ 5 * (T * J) * m := hk
        _ = 5 * (T * m * J) := by ring
    have e2 : (2 * (T * m) + 1) * (36028797018963968 * J)
        = 2 * 36028797018963968 * (T * m * J) + 36028797018963968 * J := by ring
    rw [e2]
    generalize T * m * J = y at *
    omega
  · have h1 : k * 7205759403792794 / 36028797018963968 < T * J * m := Nat.lt_of_not_le h
    have h2 : k * 7205759403792794 < T * J * m * 36028797018963968 :=
      (Nat.div_lt_iff_lt_mul (by norm_num)).1 h1
    have h3 : k * 7205759403792794 / (36028797018963968 * J) < T * m := by
      rw [Nat.div_lt_iff_lt_mul (Nat.mul_pos (by norm_num) hJ)]
      calc k * 7205759403792794 < T * J * m * 36028797018963968 := h2
        _ = T * m * (36028797018963968 * J) := by ring
    have := roundHalfEven_le (k * 7205759403792794) (36028797018963968 * J)
    omega

/-- Rounding `k * 0.2` passes the whole number `T * M` in units of `J` when `k`
is at least `4 * J` beyond `5 * (T * J) * M`. -/
theorem round_mul02_gt (k T J M : Nat) (hJ : 0 < J) (hk : 5 * (T * J) * M + 4 * J ≤ k) :
    T * M + 1 ≤ roundHalfEven (k * 7205759403792794) (36028797018963968 * J) := by
  apply roundHalfEven_ge_of_lt _ _ _ (Nat.mul_pos (by norm_num) hJ)
  have e2 : (2 * (T * M) + 1) * (36028797018963968 * J)
      = 2 * 36028797018963968 * (T * M * J) + 36028797018963968 * J := by ring
  have hk' : 5 * (T * M * J) + 4 * J ≤ k := by
    calc 5 * (T * M * J) + 4 * J = 5 * (T * J) * M + 4 * J := by ring
      _ ≤ k := hk
  rw [e2]
  generalize T * M * J = y at *
  omega

/-- The double product of a price `k` (in units of `2^-1074`, at least 3 and
below `2^53`) with `0.2` lies in the same unit interval as `k / 5`: above
`m` and at most `m + 1`, for `m = floor((k - 1) / 5)` in whole units. -/
theorem mul_const02_bracket (k : Nat) (hrep : Representable k) (h3 : 3 ≤ k)
    (hlt : k < 2 ^ 53 * scale) :
    ∃ k' : Nat, F64.mul (.fin (k : Int)) const02 = .fin (k' : Int) ∧
      scale * ((k - 1) / (5 * scale)) < k' ∧ k' ≤ scale * ((k - 1) / (5 * scale) + 1) ∧
      (k = 5 * scale * ((k - 1) / (5 * scale) + 1) →
        k' = scale * ((k - 1) / (5 * scale) + 1)) := by
  have hS := scale_pos
  -- the whole-unit bracket of k / 5
  have hm1 : 5 * scale * ((k - 1) / (5 * scale)) < k := by
    have := Nat.mul_div_le (k - 1) (5 * scale)
    omega
  have hm2 : k ≤ 5 * scale * ((k - 1) / (5 * scale) + 1) := by
    have := Nat.lt_mul_div_succ (k - 1) (by omega : 0 < 5 * scale)
    omega
  generalize (k - 1) / (5 * scale) = m at hm1 hm2 ⊢
  suffices hmain : ∃ k' : Nat, F64.mul (.fin (k : Int)) const02 = .fin (k' : Int) ∧
      scale * m < k' ∧ k' ≤ scale * (m + 1) ∧ (k = 5 * scale * (m + 1) → scale * (m + 1) ≤ k') by
    obtain ⟨k', h1, h2, h3, h4⟩ := hmain
    exact ⟨k', h1, h2, h3, fun h => le_antisymm h3 (h4 h)⟩
  -- the quotient the rounding starts from
  have hq0 : k * (7205759403792794 * 2 ^ 1019) * scale / (scale * scale)
      = k * 7205759403792794 / 36028797018963968 := by
    rw [Nat.mul_div_mul_right _ _ hS]
    conv_lhs => rw [scale_eq_mul, ← Nat.mul_assoc]
    exact Nat.mul_div_mul_right _ _ (Nat.two_pow_pos _)
  have hqP := Nat.div_mul_le_self (k * 7205759403792794) 36028797018963968
  have hq1125 : k * 7205759403792794 / 36028797018963968 < 2 ^ 1125 := by
    rw [Nat.div_lt_iff_lt_mul (by norm_num)]
    have e : (2:Nat) ^ 1125 * 36028797018963968 = 2 ^ 53 * scale * 2 ^ 53 := by
      have : (36028797018963968 : Nat) = 2 ^ 55 := by norm_num
      rw [this]; unfold scale; rw [← pow_add, ← pow_add, ← pow_add]
    rw [e]
    calc k * 7205759403792794 < 2 ^ 53 * scale * 7205759403792794 :=
          Nat.mul_lt_mul_of_pos_right hlt (by norm_num)
      _ ≤ 2 ^ 53 * scale * 2 ^ 53 := Nat.mul_le_mul_left _ (by norm_num)
  generalize hqdef : k * 7205759403792794 / 36028797018963968 = q at hq0 hqP hq1125
  have hq4096 : q < 2 ^ 4096 :=
    lt_of_lt_of_le hq1125 (Nat.pow_le_pow_right (by norm_num) (by norm_num))
  have hq2098 : q < 2 ^ 2098 :=
    lt_of_lt_of_le hq1125 (Nat.pow_le_pow_right (by norm_num) (by norm_num))
  have hL : bitLen q ≤ 1125 := by
    by_cases h0 : q = 0
    · rw [h0]; decide
    · have h1 := two_pow_bitLen_le q hq4096 h0
      have h2 : bitLen q - 1 < 1125 :=
        (Nat.pow_lt_pow_iff_right (by norm_num)).1 (lt_of_le_of_lt h1 hq1125)
      omega
  have hj : bitLen q - 53 ≤ 1072 := by omega
  have hqJ : q < 2 ^ 53 * 2 ^ (bitLen q - 53) :=
    (Nat.div_lt_iff_lt_mul (Nat.two_pow_pos _)).1 (div_step_lt q hq2098)
  have hTJ : scale = 2 ^ (1074 - (bitLen q - 53)) * 2 ^ (bitLen q - 53) := by
    unfold scale; rw [← pow_add]; congr 1; omega
  -- the rounding, freed of the common factor
  have hrhe : roundHalfEven (k * (7205759403792794 * 2 ^ 1019) * scale)
        (scale * scale * 2 ^ (bitLen q - 53))
      = roundHalfEven (k * 7205759403792794) (36028797018963968 * 2 ^ (bitLen q - 53)) := by
    have e1 : k * (7205759403792794 * 2 ^ 1019) * scale
        = k * 7205759403792794 * (2 ^ 1019 * scale) := by ring
    have e2 : scale * scale * 2 ^ (bitLen q - 53)
        = 36028797018963968 * 2 ^ (bitLen q - 53) * (2 ^ 1019 * scale) := by
      have h : scale * scale * 2 ^ (bitLen q - 53)
          = 36028797018963968 * 2 ^ 1019 * scale * 2 ^ (bitLen q - 53) := by
        nth_rewrite 1 [scale_eq_mul]; rfl
      rw [h]
      generalize (2:Nat) ^ 1019 = W
      ring
    rw [e1, e2]
    exact roundHalfEven_mul_right _ _ _ (Nat.mul_pos (Nat.two_pow_pos _) hS)
  generalize hJdef : 2 ^ (bitLen q - 53) = J at hqJ hTJ hrhe
  have hJ : 0 < J := by rw [← hJdef]; exact Nat.two_pow_pos _
  generalize hTdef : 2 ^ (1074 - (bitLen q - 53)) = T at hTJ
  -- upper bound
  have hup : roundHalfEven (k * 7205759403792794) (36028797018963968 * J) ≤ T * (m + 1) := by
    apply round_mul02_le k T J (m + 1) hJ
    · rw [← hTJ]; exact hm2
    · rw [hqdef]; exact hqJ
  -- lower bound
  have hlo : T * m + 1 ≤ roundHalfEven (k * 7205759403792794) (36028797018963968 * J) := by
    by_cases hm0 : m = 0
    · subst hm0
      rw [Nat.mul_zero, Nat.zero_add]
      have := roundHalfEven_ge_of_lt (k * 7205759403792794) (36028797018963968 * J) 0
        (Nat.mul_pos (by norm_num) hJ)
      apply this
      by_cases hb : bitLen q ≤ 53
      · have : bitLen q - 53 = 0 := by omega
        rw [this, pow_zero] at hJdef
        subst hJdef
        omega
      · have h0 : q ≠ 0 := by
          intro h0; rw [h0] at hb; exact hb (by decide)
        have h1 := two_pow_bitLen_le q hq4096 h0
        have e : J * 2 ^ 52 = 2 ^ (bitLen q - 1) := by
          rw [← hJdef, ← pow_add]; congr 1; omega
        have h2 : J * 2 ^ 52 * 36028797018963968 ≤ k * 7205759403792794 := by
          calc J * 2 ^ 52 * 36028797018963968 ≤ q * 36028797018963968 :=
                Nat.mul_le_mul_right _ (by rw [e]; exact h1)
            _ ≤ _ := hqP
        have h3 : J ≤ J * 2 ^ 52 := Nat.le_mul_of_pos_right _ (Nat.two_pow_pos _)
        have h4 : J * 36028797018963968 ≤ J * 2 ^ 52 * 36028797018963968 :=
          Nat.mul_le_mul_right _ h3
        omega
    · apply round_mul02_gt k T J m hJ
      rw [← hTJ]
      obtain ⟨mk, ek, hmk, hk⟩ := hrep
      have hmpos : 1 ≤ m := Nat.one_le_iff_ne_zero.2 hm0
      have hk5 : 5 * scale < k := by
        calc 5 * scale ≤ 5 * scale * m := Nat.le_mul_of_pos_right _ hmpos
          _ < k := hm1
      -- q is at least one whole unit, so the rounding step is a true power
      have hqS : scale ≤ q := by
        rw [← hqdef, Nat.le_div_iff_mul_le (by norm_num)]
        have : scale * 36028797018963968 ≤ 5 * scale * 7205759403792794 := by
          have : (36028797018963968 : Nat) ≤ 5 * 7205759403792794 := by norm_num
          calc scale * 36028797018963968 ≤ scale * (5 * 7205759403792794) :=
                Nat.mul_le_mul_left _ this
            _ = 5 * scale * 7205759403792794 := by ring
        calc scale * 36028797018963968 ≤ 5 * scale * 7205759403792794 := this
          _ ≤ k * 7205759403792794 := Nat.mul_le_mul_right _ (le_of_lt hk5)
      have hq0' : q ≠ 0 := by omega
      have hLlow : 1075 ≤ bitLen q := by
        by_contra hc
        have h1 := lt_two_pow_bitLen q hq4096
        have h2 : (2:Nat) ^ bitLen q ≤ 2 ^ 1074 := Nat.pow_le_pow_right (by norm_num) (by omega)
        unfold scale at hqS
        omega
      -- 4 q < k < 2^(53+ek)
      have h4q : 4 * q < k := by
        have : 4 * (q * 36028797018963968) < k * 36028797018963968 := by
          calc 4 * (q * 36028797018963968) ≤ 4 * (k * 7205759403792794) :=
                Nat.mul_le_mul_left _ hqP
            _ = k * (4 * 7205759403792794) := by ring
            _ < k * 36028797018963968 :=
                Nat.mul_lt_mul_of_pos_left (by norm_num) (by omega)
        have : 4 * q * 36028797018963968 < k * 36028797018963968 := by
          rw [Nat.mul_assoc]; exact this
        exact Nat.lt_of_mul_lt_mul_right this
      have hk53 : k < 2 ^ (53 + ek) := by
        rw [hk, pow_add]; exact Nat.mul_lt_mul_of_pos_right hmk (Nat.two_pow_pos _)
      have hqek : q < 2 ^ (51 + ek) := by
        have e : (2:Nat) ^ (53 + ek) = 4 * 2 ^ (51 + ek) := by
          rw [show 53 + ek = 2 + (51 + ek) by omega, pow_add]; norm_num
        omega
      have h1 := two_pow_bitLen_le q hq4096 hq0'
      have hLek : bitLen q - 1 < 51 + ek :=
        (Nat.pow_lt_pow_iff_right (by norm_num)).1 (lt_of_le_of_lt h1 hqek)
      -- 4 J divides both k and 5 * scale * m
      have h4J : 4 * J = 2 ^ (bitLen q - 53 + 2) := by
        rw [← hJdef, pow_add]; norm_num; ring
      have hd1 : 4 * J ∣ k := by
        rw [h4J, hk]
        exact Dvd.dvd.mul_left (Nat.pow_dvd_pow 2 (by omega)) mk
      have hd2 : 4 * J ∣ 5 * scale * m := by
        rw [h4J]
        have : 2 ^ (bitLen q - 53 + 2) ∣ scale := by
          unfold scale; exact Nat.pow_dvd_pow 2 (by omega)
        exact Dvd.dvd.mul_right (Dvd.dvd.mul_left this 5) m
      have hd3 : 4 * J ∣ k - 5 * scale * m := Nat.dvd_sub' hd1 hd2
      have := Nat.le_of_dvd (by omega) hd3
      omega
  -- assemble
  have hk'lo : scale * m < roundHalfEven (k * 7205759403792794) (36028797018963968 * J) * J := by
    calc scale * m = T * m * J := by rw [hTJ]; ring
      _ < (T * m + 1) * J := Nat.mul_lt_mul_of_pos_right (Nat.lt_succ_self _) hJ
      _ ≤ _ := Nat.mul_le_mul_right _ hlo
  have hk'up : roundHalfEven (k * 7205759403792794) (36028797018963968 * J) * J
      ≤ scale * (m + 1) := by
    calc _ ≤ T * (m + 1) * J := Nat.mul_le_mul_right _ hup
      _ = scale * (m + 1) := by rw [hTJ]; ring
  have hk'ex : k = 5 * scale * (m + 1) →
      scale * (m + 1) ≤ roundHalfEven (k * 7205759403792794) (36028797018963968 * J) * J := by
    intro hke
    have h1 : T * (m + 1) ≤ k * 7205759403792794 / (36028797018963968 * J) := by
      rw [Nat.le_div_iff_mul_le (Nat.mul_pos (by norm_num) hJ), hke, hTJ]
      have : T * (m + 1) * (36028797018963968 * J)
          = T * (m + 1) * J * 36028797018963968 := by ring
      have e : 5 * (T * J) * (m + 1) * 7205759403792794
          = T * (m + 1) * J * 36028797018963970 := by ring
      rw [this, e]
      exact Nat.mul_le_mul_left _ (by norm_num)
    have h2 := roundHalfEven_ge (k * 7205759403792794) (36028797018963968 * J)
    calc scale * (m + 1) = T * (m + 1) * J := by rw [hTJ]; ring
      _ ≤ _ := Nat.mul_le_mul_right _ (le_trans h1 h2)
  refine ⟨_, ?_, hk'lo, hk'up, hk'ex⟩
  apply fin_mul_const02
  apply roundToF64_eq _ _ q J _ hq0 hq2098 hJdef hrhe
  have hm53 : m + 1 ≤ 2 ^ 53 := by
    by_contra hc
    have : 2 ^ 53 * scale ≤ 5 * scale * m := by
      calc 2 ^ 53 * scale ≤ m * scale := Nat.mul_le_mul_right _ (by omega)
        _ ≤ 5 * scale * m := by nlinarith
    omega
  calc _ ≤ scale * (m + 1) := hk'up
    _ ≤ scale * 2 ^ 53 := Nat.mul_le_mul_left _ hm53
    _ = 2 ^ 1127 := by unfold scale; rw [← pow_add]
    _ < 2 ^ 2098 := Nat.pow_lt_pow_right (by norm_num) (by norm_num)

theorem floatToInt_Ceil_bracket (conv : F64 → Int) (k' m : Nat) (h1 : scale * m < k')
    (h2 : k' ≤ scale * (m + 1)) (hm : m + 1 ≤ 2 ^ 53) :
    floatToInt conv (Ceil (.fin (k' : Int))) = ((m + 1 : Nat) : Int) := by
  have hs : (0:Int) < scale := by exact_mod_cast scale_pos
  have hdiv : (-(k' : Int)) / (scale : Int) = -((m + 1 : Nat) : Int) := by
    have h := (Int.ediv_emod_unique (a := -(k' : Int)) (b := (scale : Int))
      (q := -((m + 1 : Nat) : Int)) (r := ((scale * (m + 1) : Nat) : Int) - (k' : Int)) hs).2
    refine (h ⟨?_, ?_, ?_⟩).1
    · push_cast; ring
    · have : (k' : Int) ≤ ((scale * (m + 1) : Nat) : Int) := by exact_mod_cast h2
      omega
    · have : ((scale * m : Nat) : Int) < (k' : Int) := by exact_mod_cast h1
      push_cast at this ⊢
      linarith
  unfold Ceil floatToInt
  simp only [hdiv, neg_neg, truncToInt_mul]
  rw [if_pos]
  have : ((m + 1 : Nat) : Int) ≤ ((2 ^ 53 : Nat) : Int) := by exact_mod_cast hm
  have e : ((2 ^ 53 : Nat) : Int) = 9007199254740992 := by norm_num
  constructor
  · unfold minInt64; omega
  · unfold maxInt64; omega

theorem floatToInt_Ceil_neg (conv : F64 → Int) (k' : Nat) (h : k' ≤ scale * 2 ^ 53) :
    floatToInt conv (Ceil (.fin (-(k' : Int)))) = -(((k' / scale : Nat)) : Int) := by
  have hs : (0:Int) < scale := by exact_mod_cast scale_pos
  have h1 : k' / scale ≤ 2 ^ 53 := by
    rw [Nat.div_le_iff_le_mul_add_pred scale_pos]
    have := scale_pos
    nlinarith
  have h2 : ((k' / scale : Nat) : Int) ≤ ((2 ^ 53 : Nat) : Int) := by exact_mod_cast h1
  have e : ((2 ^ 53 : Nat) : Int) = 9007199254740992 := by norm_num
  have h0 : (0:Int) ≤ ((k' / scale : Nat) : Int) := Int.ofNat_nonneg _
  have hdiv : (-(-(k' : Int))) / (scale : Int) = ((k' / scale : Nat) : Int) := by
    rw [neg_neg]; norm_cast
  unfold Ceil floatToInt
  simp only [hdiv, truncToInt_mul]
  rw [if_pos]
  constructor
  · unfold minInt64; omega
  · unfold maxInt64; omega

theorem ceil_fifth (k m : Nat) (h1 : 5 * scale * m < k) (h2 : k ≤ 5 * scale * (m + 1)) :
    ⌈(((k : Int) : ℚ)) / (scale : ℚ) * (1 / 5)⌉ = ((m + 1 : Nat) : Int) := by
  have hs : (0:ℚ) < (scale : ℚ) := by exact_mod_cast scale_pos
  have e : (((k : Int) : ℚ)) / (scale : ℚ) * (1 / 5) = (k : ℚ) / (5 * (scale : ℚ)) := by
    have hne : (scale : ℚ) ≠ 0 := ne_of_gt hs
    rw [Int.cast_natCast, div_mul_div_comm, mul_one, mul_comm]
  rw [e, Int.ceil_eq_iff]
  have h5 : (0:ℚ) < 5 * (scale : ℚ) := by positivity
  constructor
  · rw [lt_div_iff₀ h5]
    have : ((5 * scale * m : Nat) : ℚ) < (k : ℚ) := by exact_mod_cast h1
    push_cast at this ⊢
    linarith
  · rw [div_le_iff₀ h5]
    have : (k : ℚ) ≤ ((5 * scale * (m + 1) : Nat) : ℚ) := by exact_mod_cast h2
    push_cast at this ⊢
    linarith

theorem ceil_fifth_neg (a : Nat) :
    ⌈(((-(a : Int) : Int) : ℚ)) / (scale : ℚ) * (1 / 5)⌉ = -(((a / (5 * scale) : Nat)) : Int) := by
  have hs : (0:ℚ) < (scale : ℚ) := by exact_mod_cast scale_pos
  have h5 : (0:ℚ) < 5 * (scale : ℚ) := by positivity
  have e : (((-(a : Int) : Int) : ℚ)) / (scale : ℚ) * (1 / 5) = -((a : ℚ) / (5 * (scale : ℚ))) := by
    rw [Int.cast_neg, Int.cast_natCast, div_mul_div_comm, mul_one, mul_comm (scale : ℚ), neg_div]
  have : (5 * (scale : ℚ)) = ((5 * scale : Nat) : ℚ) := by push_cast; ring
  rw [e, Int.ceil_neg, neg_inj, this, Rat.floor_natCast_div_natCast]
  norm_cast

theorem itemPoints_of_zero (conv : F64 → Int) : 
    floatToInt conv (Ceil (F64.mul (.fin 0) const02)) = 0 := by
  have h : F64.mul (.fin 0) const02 = .fin 0 := by decide
  rw [h]
  rfl

/-- The points of an item the description rule looks at, for a price `k` (in
units of `2^-1074`) that is 0 or from 3 units up to below `2^53`: the ceiling of
the exact fifth of the price. -/
theorem itemPoints_eq_ceil (conv : F64 → Int) (item : Item) (k : Int)
    (hd : DescriptionCounts item) (hp : ParseFloat item.Price = some (.fin k))
    (hr : k = 0 ∨ (3 ≤ k ∧ k < ((2 ^ 53 * scale : Nat) : Int))) :
    itemPoints conv item = ⌈(k : ℚ) / (scale : ℚ) * (1 / 5)⌉ := by
  unfold DescriptionCounts at hd
  unfold itemPoints
  rw [if_pos hd, hp]
  simp only []
  rcases hr with h0 | ⟨h3, hlt⟩
  · subst h0
    rw [itemPoints_of_zero]
    simp
  · obtain ⟨kn, rfl⟩ := Int.eq_ofNat_of_zero_le (by omega : 0 ≤ k)
    have hrep := (ParseFloat_fin _ _ hp).1
    rw [Int.natAbs_ofNat] at hrep
    have h3' : 3 ≤ kn := by exact_mod_cast h3
    have hlt' : kn < 2 ^ 53 * scale := by exact_mod_cast hlt
    obtain ⟨k', hmul, hlo, hup, _⟩ := mul_const02_bracket kn hrep h3' hlt'
    have hm1 : 5 * scale * ((kn - 1) / (5 * scale)) < kn := by
      have := Nat.mul_div_le (kn - 1) (5 * scale)
      omega
    have hm2 : kn ≤ 5 * scale * ((kn - 1) / (5 * scale) + 1) := by
      have := Nat.lt_mul_div_succ (kn - 1) (by have := scale_pos; omega : 0 < 5 * scale)
      omega
    have hm53 : (kn - 1) / (5 * scale) + 1 ≤ 2 ^ 53 := by
      by_contra hc
      have : 2 ^ 53 * scale ≤ 5 * scale * ((kn - 1) / (5 * scale)) := by
        calc 2 ^ 53 * scale ≤ (kn - 1) / (5 * scale) * scale :=
              Nat.mul_le_mul_right _ (by omega)
          _ ≤ 5 * scale * ((kn - 1) / (5 * scale)) := by nlinarith
      omega
    rw [hmul, floatToInt_Ceil_bracket conv k' _ hlo hup hm53, ceil_fifth kn _ hm1 hm2]

/-- The points of an item the description rule looks at, for a negative price
above `-2^53`: the ceiling of the exact fifth of the price or one less, and
that ceiling when the price is a multiple of 5. -/
theorem itemPoints_of_neg (conv : F64 → Int) (item : Item) (k : Int)
    (hd : DescriptionCounts item) (hp : ParseFloat item.Price = some (.fin k))
    (hr : -((2 ^ 53 * scale : Nat) : Int) < k ∧ k < 0) :
    ⌈(k : ℚ) / (scale : ℚ) * (1 / 5)⌉ - 1 ≤ itemPoints conv item ∧
    itemPoints conv item ≤ ⌈(k : ℚ) / (scale : ℚ) * (1 / 5)⌉ ∧
    (((5 * scale : Nat) : Int) ∣ k → itemPoints conv item = ⌈(k : ℚ) / (scale : ℚ) * (1 / 5)⌉) := by
  unfold DescriptionCounts at hd
  unfold itemPoints
  rw [if_pos hd, hp]
  simp only []
  obtain ⟨a, ha⟩ : ∃ a : Nat, k = -(a : Int) := ⟨k.natAbs, by omega⟩
  subst ha
  have hrep := (ParseFloat_fin _ _ hp).1
  rw [Int.natAbs_neg, Int.natAbs_ofNat] at hrep
  have hapos : 0 < a := by omega
  have hlt : a < 2 ^ 53 * scale := by
    have : (a : Int) < ((2 ^ 53 * scale : Nat) : Int) := by omega
    exact_mod_cast this
  rw [ceil_fifth_neg]
  by_cases h3 : 3 ≤ a
  · obtain ⟨k', hmul, hlo, hup, hex⟩ := mul_const02_bracket a hrep h3 hlt
    have hm1 : 5 * scale * ((a - 1) / (5 * scale)) < a := by
      have := Nat.mul_div_le (a - 1) (5 * scale)
      omega
    have hm2 : a ≤ 5 * scale * ((a - 1) / (5 * scale) + 1) := by
      have := Nat.lt_mul_div_succ (a - 1) (by have := scale_pos; omega : 0 < 5 * scale)
      omega
    have hm53 : (a - 1) / (5 * scale) + 1 ≤ 2 ^ 53 := by
      by_contra hc
      have : 2 ^ 53 * scale ≤ 5 * scale * ((a - 1) / (5 * scale)) := by
        calc 2 ^ 53 * scale ≤ (a - 1) / (5 * scale) * scale :=
              Nat.mul_le_mul_right _ (by omega)
          _ ≤ 5 * scale * ((a - 1) / (5 * scale)) := by nlinarith
      omega
    generalize (a - 1) / (5 * scale) = m at hlo hup hex hm1 hm2 hm53
    have hk'53 : k' ≤ scale * 2 ^ 53 := le_trans hup (Nat.mul_le_mul_left _ hm53)
    rw [fin_neg_mul_const02 a k' hapos hmul, floatToInt_Ceil_neg conv k' hk'53]
    have h5pos : 0 < 5 * scale := by have := scale_pos; omega
    by_cases hex' : a = 5 * scale * (m + 1)
    · have e1 : k' / scale = m + 1 := by
        rw [hex hex']; exact Nat.mul_div_cancel_left _ scale_pos
      have e2 : a / (5 * scale) = m + 1 := by
        rw [hex']; exact Nat.mul_div_cancel_left _ h5pos
      rw [e1, e2]
      exact ⟨by omega, le_refl _, fun _ => rfl⟩
    · have e2 : a / (5 * scale) = m := by
        apply Nat.div_eq_of_lt_le
        · rw [Nat.mul_comm]; exact le_of_lt hm1
        · rw [Nat.mul_comm]; exact lt_of_le_of_ne hm2 hex'
      have e1lo : m ≤ k' / scale := by
        rw [Nat.le_div_iff_mul_le scale_pos]; nlinarith
      have e1up : k' / scale ≤ m + 1 := by
        rw [Nat.div_le_iff_le_mul_add_pred scale_pos]
        have := scale_pos
        nlinarith
      rw [e2]
      refine ⟨by omega, by omega, ?_⟩
      intro hdvd
      exfalso
      rw [Int.dvd_neg] at hdvd
      have hdvd' : 5 * scale ∣ a := by exact_mod_cast hdvd
      obtain ⟨c, hc⟩ := hdvd'
      rw [hc] at hm1 hm2 hex'
      have h1 : m < c := Nat.lt_of_mul_lt_mul_left hm1
      have h2 : c ≤ m + 1 := Nat.le_of_mul_le_mul_left hm2 h5pos
      have : c = m + 1 := by omega
      exact hex' (by rw [this])
  · have hsmall : a = 1 ∨ a = 2 := by omega
    have h5 : a / (5 * scale) = 0 := by
      apply Nat.div_eq_of_lt
      have : 2 < scale := by unfold scale; exact lt_of_lt_of_le (by norm_num) (Nat.pow_le_pow_right (by norm_num) (by norm_num : 2 ≤ 1074))
      omega
    rw [h5]
    have hval : floatToInt conv (Ceil (F64.mul (.fin (-(a : Int))) const02)) = 0 := by
      rcases hsmall with rfl | rfl
      · have h : F64.mul (.fin (-((1 : Nat) : Int))) const02 = .fin 0 := by decide
        rw [h]; rfl
      · have h : F64.mul (.fin (-((2 : Nat) : Int))) const02 = .fin 0 := by decide
        rw [h]; rfl
    rw [hval]
    exact ⟨by simp, by simp, fun _ => by simp⟩

/-! ## Dates written `YYYY-MM-DD` -/

theorem digitChar_toNat (a : Nat) (ha : a < 10) : (digitChar a).toNat = 48 + a := by
  unfold digitChar
  interval_cases a <;> rfl

theorem isDigit_digitChar (a : Nat) (ha : a < 10) : isDigit (digitChar a) = true := by
  unfold isDigit
  rw [digitChar_toNat a ha]
  simp
  omega

theorem digitVal_digitChar (a : Nat) (ha : a < 10) : digitVal (digitChar a) = a := by
  unfold digitVal
  rw [digitChar_toNat a ha]
  omega

theorem isDigit_iff (c : Char) : isDigit c = true ↔ ∃ a, a < 10 ∧ c = digitChar a := by
  constructor
  · intro h
    unfold isDigit at h
    simp only [Bool.and_eq_true, decide_eq_true_eq] at h
    refine ⟨c.toNat - 48, by omega, ?_⟩
    unfold digitChar
    have : 48 + (c.toNat - 48) = c.toNat := by omega
    rw [this, Char.ofNat_toNat]
  · rintro ⟨a, ha, rfl⟩
    exact isDigit_digitChar a ha

theorem getnum_fixed_iff (v rest : List Char) (n : Nat) :
    getnum v true = some (n, rest) ↔ n < 100 ∧ v = twoDigits n ++ rest := by
  constructor
  · intro h
    unfold getnum at h
    split at h
    · exact Option.noConfusion h
    · simp only [if_true, ite_self] at h
      exact Option.noConfusion h
    · rename_i a b tl
      simp only [if_true] at h
      split_ifs at h with h1 h2
      simp only [Option.some.injEq, Prod.mk.injEq] at h
      obtain ⟨x, hx, rfl⟩ := (isDigit_iff a).1 (by simpa using h1)
      obtain ⟨y, hy, rfl⟩ := (isDigit_iff b).1 (by simpa using h2)
      rw [digitVal_digitChar x hx, digitVal_digitChar y hy] at h
      obtain ⟨hn, rfl⟩ := h
      subst hn
      refine ⟨by omega, ?_⟩
      unfold twoDigits
      have e1 : (x * 10 + y) / 10 = x := by omega
      have e2 : (x * 10 + y) % 10 = y := by omega
      rw [e1, e2]
      rfl
  · rintro ⟨hn, rfl⟩
    unfold twoDigits getnum
    simp only [List.cons_append, List.nil_append]
    rw [isDigit_digitChar _ (by omega), isDigit_digitChar _ (Nat.mod_lt _ (by norm_num)),
      digitVal_digitChar _ (by omega), digitVal_digitChar _ (Nat.mod_lt _ (by norm_num))]
    simp only [Bool.not_true, Bool.false_eq_true, if_false, Option.some.injEq, Prod.mk.injEq,
      and_true]
    omega

theorem Parse_2006_01_02_of_date (s : String) (y m d : Nat) (h : IsCalendarDate s y m d) :
    Parse_2006_01_02 s = some ⟨y, m, d, 0, 0⟩ := by
  obtain ⟨hy, hm1, hm12, hd1, hdn, hs⟩ := h
  have hd31 : daysIn m y ≤ 31 := by
    unfold daysIn; split_ifs <;> omega
  have g1 : getnum (twoDigits m ++ '-' :: twoDigits d) true = some (m, '-' :: twoDigits d) :=
    (getnum_fixed_iff _ _ _).2 ⟨by omega, rfl⟩
  have g2 : getnum (twoDigits d) true = some (d, []) :=
    (getnum_fixed_iff _ _ _).2 ⟨by omega, by simp⟩
  unfold Parse_2006_01_02
  rw [hs]
  simp only [fourDigits, List.cons_append, List.nil_append]
  rw [isDigit_digitChar _ (by omega), isDigit_digitChar _ (Nat.mod_lt _ (by norm_num)),
    isDigit_digitChar _ (Nat.mod_lt _ (by norm_num)),
    isDigit_digitChar _ (Nat.mod_lt _ (by norm_num)),
    digitVal_digitChar _ (by omega), digitVal_digitChar _ (Nat.mod_lt _ (by norm_num)),
    digitVal_digitChar _ (Nat.mod_lt _ (by norm_num)),
    digitVal_digitChar _ (Nat.mod_lt _ (by norm_num))]
  simp only [Bool.and_self, Bool.not_true, Bool.false_eq_true, if_false, ne_eq, not_true_eq_false,
    g1, g2]
  have hm0 : ¬ (m = 0 ∨ 12 < m) := by omega
  have hdd : ¬ (d < 1 ∨ daysIn m y < d) := by omega
  have hy' : ((y / 1000 * 10 + y / 100 % 10) * 10 + y / 10 % 10) * 10 + y % 10 = y := by omega
  simp only [hm0, hdd, if_false, hy']

theorem date_of_Parse_2006_01_02 (s : String) (t : Time) (h : Parse_2006_01_02 s = some t) :
    IsCalendarDate s t.year t.month t.day ∧ t.hour = 0 ∧ t.minute = 0 := by
  unfold Parse_2006_01_02 at h
  split at h
  · rename_i y1 y2 y3 y4 v1 hs
    by_cases hdig : (isDigit y1 && isDigit y2 && isDigit y3 && isDigit y4) = true
    swap
    · simp only [hdig, Bool.not_false, if_true] at h
      exact Option.noConfusion h
    simp only [hdig, Bool.not_true, Bool.false_eq_true, if_false] at h
    simp only [Bool.and_eq_true] at hdig
    obtain ⟨⟨⟨h1, h2⟩, h3⟩, h4⟩ := hdig
    obtain ⟨a1, ha1, rfl⟩ := (isDigit_iff y1).1 h1
    obtain ⟨a2, ha2, rfl⟩ := (isDigit_iff y2).1 h2
    obtain ⟨a3, ha3, rfl⟩ := (isDigit_iff y3).1 h3
    obtain ⟨a4, ha4, rfl⟩ := (isDigit_iff y4).1 h4
    simp only [digitVal_digitChar _ ha1, digitVal_digitChar _ ha2, digitVal_digitChar _ ha3,
      digitVal_digitChar _ ha4] at h
    split at h
    · rename_i sep1 v2
      split_ifs at h with hsep1
      simp only [ne_eq, not_not] at hsep1
      split at h
      · exact Option.noConfusion h
      · rename_i month v3 hg1
        split_ifs at h with hmonth
        split at h
        · rename_i sep2 v4
          split_ifs at h with hsep2
          simp only [ne_eq, not_not] at hsep2
          split at h
          · exact Option.noConfusion h
          · rename_i day v5 hg2
            split_ifs at h with hv5 hday
            simp only [ne_eq, not_not] at hv5
            simp only [Option.some.injEq] at h
            subst h
            obtain ⟨hm, hv2⟩ := (getnum_fixed_iff _ _ _).1 hg1
            obtain ⟨hd, hv4⟩ := (getnum_fixed_iff _ _ _).1 hg2
            dsimp only
            refine ⟨⟨by omega, by omega, by omega, by omega, by omega, ?_⟩, rfl, rfl⟩
            rw [hs, hv2, hv4, hsep1, hsep2, hv5]
            simp only [fourDigits, List.cons_append, List.nil_append, List.append_nil]
            have e1 : (((a1 * 10 + a2) * 10 + a3) * 10 + a4) / 1000 = a1 := by omega
            have e2 : (((a1 * 10 + a2) * 10 + a3) * 10 + a4) / 100 % 10 = a2 := by omega
            have e3 : (((a1 * 10 + a2) * 10 + a3) * 10 + a4) / 10 % 10 = a3 := by omega
            have e4 : (((a1 * 10 + a2) * 10 + a3) * 10 + a4) % 10 = a4 := by omega
            rw [e1, e2, e3, e4]
        · exact Option.noConfusion h
    · exact Option.noConfusion h
  · exact Option.noConfusion h

/-! ## Times written `HH:MM` -/

theorem digitVal_lt_of_isDigit (c : Char) (h : isDigit c = true) : digitVal c < 10 := by
  obtain ⟨a, ha, rfl⟩ := (isDigit_iff c).1 h
  rw [digitVal_digitChar a ha]
  exact ha

theorem Parse_15_04_of_clock (s : String) (hour minute : Nat) (h : IsClockTime s hour minute) :
    Parse_15_04 s = some ⟨0, 1, 1, hour, minute⟩ := by
  obtain ⟨hh, hm, hs⟩ := h
  have g2 : getnum (twoDigits minute) true = some (minute, []) :=
    (getnum_fixed_iff _ _ _).2 ⟨by omega, by simp⟩
  have g1 : getnum (twoDigits hour ++ ':' :: twoDigits minute) false
      = some (hour, ':' :: twoDigits minute) := by
    unfold twoDigits getnum
    simp only [List.cons_append, List.nil_append]
    rw [isDigit_digitChar _ (by omega), isDigit_digitChar _ (Nat.mod_lt _ (by norm_num)),
      digitVal_digitChar _ (by omega), digitVal_digitChar _ (Nat.mod_lt _ (by norm_num))]
    simp only [Bool.not_true, Bool.false_eq_true, if_false, Option.some.injEq, Prod.mk.injEq,
      and_true]
    omega
  unfold Parse_15_04
  rw [hs, g1]
  have h24 : ¬ (24 ≤ hour) := by omega
  have h60 : ¬ (60 ≤ minute) := by omega
  simp only [h24, h60, if_false, ne_eq, not_true_eq_false, g2]

theorem clock_of_Parse_15_04 (s : String) (t : Time) (h : Parse_15_04 s = some t) :
    t.hour ≤ 23 ∧ t.minute ≤ 59 ∧
    (s.toList = twoDigits t.hour ++ ':' :: twoDigits t.minute ∨
      (t.hour ≤ 9 ∧ s.toList = digitChar t.hour :: ':' :: twoDigits t.minute)) := by
  unfold Parse_15_04 at h
  split at h
  · exact Option.noConfusion h
  · rename_i hour v1 hg1
    split_ifs at h with hhour
    split at h
    · rename_i sep v2
      split_ifs at h with hsep
      simp only [ne_eq, not_not] at hsep
      split at h
      · exact Option.noConfusion h
      · rename_i min v3 hg2
        split_ifs at h with hmin hv3
        simp only [ne_eq, not_not] at hv3
        simp only [Option.some.injEq] at h
        subst h
        obtain ⟨_, hv2⟩ := (getnum_fixed_iff _ _ _).1 hg2
        dsimp only
        refine ⟨by omega, by omega, ?_⟩
        subst hsep hv3 hv2
        unfold getnum at hg1
        split at hg1
        · exact Option.noConfusion hg1
        · split_ifs at hg1
          simp only [Option.some.injEq, Prod.mk.injEq] at hg1
          exact absurd hg1.2 (by simp)
        · rename_i a b rest hsl
          by_cases ha : isDigit a = true
          swap
          · simp only [ha, Bool.not_false, if_true] at hg1
            exact Option.noConfusion hg1
          simp only [ha, Bool.not_true, Bool.false_eq_true, if_false] at hg1
          obtain ⟨x, hx, rfl⟩ := (isDigit_iff a).1 ha
          rw [digitVal_digitChar x hx] at hg1
          by_cases hb : isDigit b = true
          · simp only [hb, Bool.not_true, Bool.false_eq_true, if_false, Option.some.injEq,
              Prod.mk.injEq] at hg1
            obtain ⟨y, hy, rfl⟩ := (isDigit_iff b).1 hb
            rw [digitVal_digitChar y hy] at hg1
            obtain ⟨h1, h2⟩ := hg1
            left
            rw [hsl, h2, ← h1]
            unfold twoDigits
            have e1 : (x * 10 + y) / 10 = x := by omega
            have e2 : (x * 10 + y) % 10 = y := by omega
            rw [e1, e2]
            simp
          · simp only [hb, Bool.not_false, if_true, Bool.false_eq_true, if_false,
              Option.some.injEq, Prod.mk.injEq] at hg1
            obtain ⟨h1, h2⟩ := hg1
            right
            refine ⟨by omega, ?_⟩
            rw [hsl, h2, ← h1]
            simp
    · exact Option.noConfusion h

theorem timePoints_eq_ten_iff (s : String) :
    timePoints s = 10 ↔ ∃ minute, IsClockTime s 14 minute := by
  unfold timePoints
  constructor
  · intro h
    split at h
    · rename_i t ht
      split_ifs at h with h14
      · obtain ⟨_, hm, hs⟩ := clock_of_Parse_15_04 _ _ ht
        unfold Time.Hour at h14
        rcases hs with hs | ⟨h9, _⟩
        · exact ⟨t.minute, by omega, hm, by rw [hs, h14]⟩
        · omega
      · exact absurd h (by decide)
    · exact absurd h (by decide)
  · rintro ⟨minute, hc⟩
    rw [Parse_15_04_of_clock _ _ _ hc]
    rfl

/-! ## Bounds of the rules, and the score when one field changes -/

theorem roundDollarPoints_bounds (conv : F64 → Int) (total : String) :
    0 ≤ roundDollarPoints conv total ∧ roundDollarPoints conv total ≤ 50 := by
  unfold roundDollarPoints
  split
  · split_ifs <;> omega
  · omega

theorem quarterPoints_bounds (total : String) :
    0 ≤ quarterPoints total ∧ quarterPoints total ≤ 25 := by
  unfold quarterPoints
  split
  · split_ifs <;> omega
  · omega

theorem dayPoints_bounds (date : String) : 0 ≤ dayPoints date ∧ dayPoints date ≤ 6 := by
  unfold dayPoints
  split
  · split_ifs <;> omega
  · omega

theorem timePoints_bounds (time : String) : 0 ≤ timePoints time ∧ timePoints time ≤ 10 := by
  unfold timePoints
  split
  · split_ifs <;> omega
  · omega

theorem retailerPoints_bounds (retailer : String) :
    0 ≤ retailerPoints retailer ∧ retailerPoints retailer ≤ retailer.length := by
  rw [retailerPoints_eq]
  unfold alnumCount
  exact ⟨Int.ofNat_nonneg _, by exact_mod_cast List.countP_le_length _⟩

theorem pairPoints_eq (n : Nat) : pairPoints n = ((5 * (n / 2) : Nat) : Int) := by
  unfold pairPoints
  push_cast
  ring

theorem exactPoints_retailer (conv : F64 → Int) (r : Receipt) :
    exactPoints conv r
      = exactPoints conv { r with Retailer := "" } + (alnumCount r.Retailer : Int) := by
  have h0 : retailerPoints "" = 0 := by decide
  simp only [exactPoints, h0, retailerPoints_eq]
  ring

theorem exactPoints_total (conv : F64 → Int) (r : Receipt) (bad : String)
    (hbad : ParseFloat bad = none) :
    exactPoints conv r = exactPoints conv { r with Total := bad }
      + (roundDollarPoints conv r.Total + quarterPoints r.Total) := by
  have h1 : roundDollarPoints conv bad = 0 := by unfold roundDollarPoints; rw [hbad]
  have h2 : quarterPoints bad = 0 := by unfold quarterPoints; rw [hbad]
  simp only [exactPoints, h1, h2]
  ring

theorem exactPoints_items (conv : F64 → Int) (r : Receipt) :
    exactPoints conv r = exactPoints conv { r with Items := [] }
      + ((5 * (r.Items.length / 2) : Nat) : Int) + (r.Items.map (itemPoints conv)).sum := by
  have h0 : pairPoints 0 = 0 := by decide
  simp only [exactPoints, pairPoints_eq r.Items.length, List.length_nil, h0, List.map_nil,
    List.sum_nil]
  ring

theorem exactPoints_date (conv : F64 → Int) (r : Receipt) :
    exactPoints conv r
      = exactPoints conv { r with PurchaseDate := "" } + dayPoints r.PurchaseDate := by
  have h0 : dayPoints "" = 0 := by decide
  simp only [exactPoints, h0]
  ring

theorem exactPoints_time (conv : F64 → Int) (r : Receipt) :
    exactPoints conv r
      = exactPoints conv { r with PurchaseTime := "" } + timePoints r.PurchaseTime := by
  have h0 : timePoints "" = 0 := by decide
  simp only [exactPoints, h0]
  ring

/-! ## The store after a sequence of process operations -/

theorem points_processAll (decode : String → Option Receipt) (conv : F64 → Int)
    (reqs : List (String × String)) (st : Store) (receiptID : String) :
    (processAll decode conv st reqs).1.points receiptID = none ↔
      st.points receiptID = none ∧ receiptID ∉ issuedIDs (processAll decode conv st reqs).2 := by
  induction reqs generalizing st with
  | nil => simp [processAll, issuedIDs]
  | cons req rest ih =>
    obtain ⟨body, newID⟩ := req
    simp only [processAll]
    rw [ih]
    cases hd : decode body with
    | none => simp [processReceiptHandler, hd, issuedIDs]
    | some receipt =>
      simp only [processReceiptHandler, hd, issuedIDs, GoMap.set, List.mem_cons, not_or]
      by_cases hk : receiptID = newID
      · simp [hk]
      · simp [hk]

/-! ## The identifier in the path of a lookup -/

theorem TrimPrefix_append (pre s : List Char) : TrimPrefix (pre ++ s) pre = s := by
  unfold TrimPrefix
  rw [if_pos (List.isPrefixOf_iff_prefix.2 (List.prefix_append pre s)), List.drop_left]

theorem TrimSuffix_append (s suffix : List Char) : TrimSuffix (s ++ suffix) suffix = s := by
  unfold TrimSuffix
  rw [if_pos (List.isSuffixOf_iff_suffix.2 (List.suffix_append s suffix))]
  exact List.take_left' (by simp)

theorem pathReceiptID_route (id : String) :
    pathReceiptID ("/receipts/" ++ id ++ "/points") = id := by
  have h : ("/receipts/" ++ id ++ "/points").toList
      = "/receipts/".toList ++ (id.toList ++ "/points".toList) := by
    simp [String.toList, List.append_assoc]
  unfold pathReceiptID
  simp only [h, TrimPrefix_append, HasSuffix,
    List.isSuffixOf_iff_suffix.2 (List.suffix_append id.toList "/points".toList), if_true,
    TrimSuffix_append]
  rfl

/-! ## Goroutines: what one statement does -/

/-- A goroutine that runs alone through `processReceiptHandler` does what the
handler does as a function. -/
theorem run_alone_process (decode : String → Option Receipt) (conv : F64 → Int) (st : Store)
    (body draw : String) :
    Server.run decode conv ⟨st, false, [.procDecode body draw]⟩ [0, 0, 0, 0, 0, 0, 0]
      = ⟨(processReceiptHandler decode conv st body draw).1, false,
          [.done (processReceiptHandler decode conv st body draw).2]⟩ := by
  cases hd : decode body <;>
    simp [Server.run, Server.step, Goroutine.step, processReceiptHandler, hd]

/-- A goroutine that runs alone through `getPointsHandler` does what the
handler does as a function. -/
theorem run_alone_get (decode : String → Option Receipt) (conv : F64 → Int) (st : Store)
    (path : String) :
    Server.run decode conv ⟨st, false, [.getPath path]⟩ [0, 0, 0, 0, 0]
      = ⟨st, false, [.done (getPointsHandler st path)]⟩ := by
  cases hp : st.points (pathReceiptID path) <;>
    simp [Server.run, Server.step, Goroutine.step, getPointsHandler, lookupPoints, hp]

theorem serveAll_keeps (decode : String → Option Receipt) (conv : F64 → Int) (A : String)
    (later : List Request) (st : Store) (h : ∀ req ∈ later, req.draws A = false) :
    (serveAll decode conv st later).1.points A = st.points A ∧
    (serveAll decode conv st later).1.receipts A = st.receipts A := by
  induction later generalizing st with
  | nil => exact ⟨rfl, rfl⟩
  | cons req rest ih =>
    have hrest := ih (serve decode conv st req).1 (fun q hq => h q (List.mem_cons_of_mem _ hq))
    have hreq := h req (List.mem_cons_self _ _)
    simp only [serveAll]
    rw [hrest.1, hrest.2]
    cases req with
    | lookup path => exact ⟨rfl, rfl⟩
    | process body receiptID =>
      have hne : ¬ A = receiptID := by
        intro heq
        simp [Request.draws, heq] at hreq
      cases hd : decode body <;> simp [serve, processReceiptHandler, hd, GoMap.set, hne]

theorem exactPoints_perm (conv : F64 → Int) (r : Receipt) (items : List Item)
    (h : r.Items.Perm items) :
    exactPoints conv { r with Items := items } = exactPoints conv r := by
  simp only [exactPoints, h.length_eq, (h.map (itemPoints conv)).sum_eq]

/-- Why the identifiers must differ: a second receipt processed under the
identifier of a first replaces its record. -/
theorem same_identifier_overwrites (decode : String → Option Receipt) (conv : F64 → Int)
    (st : Store) (body₁ body₂ A : String) (r₁ r₂ : Receipt)
    (h1 : decode body₁ = some r₁) (h2 : decode body₂ = some r₂) :
    lookupPoints (processReceiptHandler decode conv st body₁ A).1 A
      = .PointsResponse (calculatePoints conv r₁) ∧
    lookupPoints (processReceiptHandler decode conv
        (processReceiptHandler decode conv st body₁ A).1 body₂ A).1 A
      = .PointsResponse (calculatePoints conv r₂) := by
  simp [processReceiptHandler, h1, h2, lookupPoints, GoMap.set]

/-! ## C1: sign of the score -/

/-- C1 (amended): the score is at least 0 for every receipt in which each item
the description rule looks at has a price that does not parse or parses to a
finite number `p` with `0 <= p < 2^63`, and whose rules sum to at most
`2^63 - 1` (no int64 wrap-around). -/
theorem calculatePoints_nonneg (conv : F64 → Int) (r : Receipt)
    (hprice : ∀ it ∈ r.Items, DescriptionCounts it → NonNegPrice it.Price)
    (hsum : exactPoints conv r ≤ maxInt64) :
    0 ≤ calculatePoints conv r := by
  have hitems : 0 ≤ (r.Items.map (itemPoints conv)).sum := by
    apply List.sum_nonneg
    intro x hx
    obtain ⟨it, hit, rfl⟩ := List.mem_map.1 hx
    exact itemPoints_nonneg conv it (hprice it hit)
  have h0 : 0 ≤ exactPoints conv r := by
    have h1 := (retailerPoints_bounds r.Retailer).1
    have h2 := (roundDollarPoints_bounds conv r.Total).1
    have h3 := (quarterPoints_bounds r.Total).1
    have h4 : 0 ≤ pairPoints r.Items.length := by rw [pairPoints_eq]; exact Int.ofNat_nonneg _
    have h6 := (dayPoints_bounds r.PurchaseDate).1
    have h7 := (timePoints_bounds r.PurchaseTime).1
    unfold exactPoints
    omega
  rw [calculatePoints_of_inRange conv r ⟨by unfold minInt64; omega, hsum⟩]
  exact h0

/-- C1, witness: the sample receipt scores 28. -/
theorem calculatePoints_nonneg_witness :
    (∀ it ∈ sampleReceipt.Items, DescriptionCounts it → NonNegPrice it.Price) ∧
    exactPoints convAMD64 sampleReceipt ≤ maxInt64 ∧
    0 ≤ calculatePoints convAMD64 sampleReceipt ∧
    calculatePoints convAMD64 sampleReceipt = 28 :=
  ⟨by decide, by decide,
   calculatePoints_nonneg convAMD64 sampleReceipt (by decide) (by decide), by decide⟩

/-- C1, counterexample: one item with description "abc" and price "-5.00"
scores `ceil(-5.00 * 0.2) = -1`; the receipt's score is -1.  The score is also
negative when two items of `2^62` points wrap the int64 sum around, and, on
amd64, when a price is too large for its fifth to fit an `int`. -/
theorem calculatePoints_negative_price :
    calculatePoints convAMD64 refundReceipt = -1 ∧
    calculatePoints convARM64 refundReceipt = -1 ∧
    ¬ (0 ≤ calculatePoints convAMD64 refundReceipt) ∧
    calculatePoints convAMD64 (itemsOnly [hugeItem, hugeItem]) = -9223372036854775803 ∧
    calculatePoints convAMD64 (itemsOnly [⟨"abc", "1e30"⟩]) = -9223372036854775808 := by
  refine ⟨by decide, by decide, by decide, by decide, by decide⟩

/-! ## C2: the score as a sum of rules -/

/-- C2 (amended): the score is the sum of seven rule contributions, each a
function of one field (the description term a sum over the items), reduced to
the int64 range by two's complement wrap-around; it is the plain sum whenever
that sum lies within int64. -/
theorem calculatePoints_sum_of_rules (conv : F64 → Int) (r : Receipt) :
    calculatePoints conv r
      = wrapInt64 (retailerPoints r.Retailer + roundDollarPoints conv r.Total
          + quarterPoints r.Total + pairPoints r.Items.length
          + (r.Items.map (itemPoints conv)).sum
          + dayPoints r.PurchaseDate + timePoints r.PurchaseTime) ∧
    (InRange (retailerPoints r.Retailer + roundDollarPoints conv r.Total
          + quarterPoints r.Total + pairPoints r.Items.length
          + (r.Items.map (itemPoints conv)).sum
          + dayPoints r.PurchaseDate + timePoints r.PurchaseTime) →
      calculatePoints conv r
        = retailerPoints r.Retailer + roundDollarPoints conv r.Total
          + quarterPoints r.Total + pairPoints r.Items.length
          + (r.Items.map (itemPoints conv)).sum
          + dayPoints r.PurchaseDate + timePoints r.PurchaseTime) :=
  ⟨calculatePoints_eq_wrap conv r, fun h => calculatePoints_of_inRange conv r h⟩

/-- C2, counterexample: no seven functions of the fields add up to the score
over the integers.  One item of price `5 * 2^62` scores `2^62`, two of them
score `5 - 2^63` by wrap-around, while one and two plain items score 0 and 5. -/
theorem no_exact_sum_of_rules :
    ¬ ∃ (fRetailer fRound fQuarter : String → Int) (fPair : Nat → Int) (fItem : Item → Int)
        (fDay fTime : String → Int),
        ∀ r : Receipt, calculatePoints convAMD64 r
          = fRetailer r.Retailer + fRound r.Total + fQuarter r.Total + fPair r.Items.length
            + (r.Items.map fItem).sum + fDay r.PurchaseDate + fTime r.PurchaseTime := by
  rintro ⟨fRetailer, fRound, fQuarter, fPair, fItem, fDay, fTime, H⟩
  have h1 := H (itemsOnly [hugeItem])
  have h2 := H (itemsOnly [hugeItem, hugeItem])
  have h3 := H (itemsOnly [plainItem])
  have h4 := H (itemsOnly [plainItem, plainItem])
  have e1 : calculatePoints convAMD64 (itemsOnly [hugeItem]) = 4611686018427387904 := by decide
  have e2 : calculatePoints convAMD64 (itemsOnly [hugeItem, hugeItem]) = -9223372036854775803 := by
    decide
  have e3 : calculatePoints convAMD64 (itemsOnly [plainItem]) = 0 := by decide
  have e4 : calculatePoints convAMD64 (itemsOnly [plainItem, plainItem]) = 5 := by decide
  rw [e1] at h1; rw [e2] at h2; rw [e3] at h3; rw [e4] at h4
  simp only [itemsOnly, List.map_cons, List.map_nil, List.sum_cons, List.sum_nil,
    List.length_cons, List.length_nil] at h1 h2 h3 h4
  omega

/-! ## C3, C4: process, then lookup -/

/-- C3: after the process operation has stored a decoded receipt under the
identifier `A`, whatever the state before, the lookup of `A` finds a record and
answers with exactly `calculatePoints` of that receipt. -/
theorem lookup_after_process (decode : String → Option Receipt) (conv : F64 → Int) (st : Store)
    (body A : String) (receipt : Receipt) (hdec : decode body = some receipt) :
    (processReceiptHandler decode conv st body A).2 = .IDResponse A ∧
    lookupPoints (processReceiptHandler decode conv st body A).1 A
      = .PointsResponse (calculatePoints conv receipt) := by
  simp [processReceiptHandler, hdec, lookupPoints, GoMap.set]

/-- C3, witness: the sample receipt processed into the empty store under
"id-1" is then looked up with its 28 points. -/
theorem lookup_after_process_witness :
    sampleDecode "target" = some sampleReceipt ∧
    (processReceiptHandler sampleDecode convAMD64 Store.empty "target" "id-1").2
      = .IDResponse "id-1" ∧
    lookupPoints (processReceiptHandler sampleDecode convAMD64 Store.empty "target" "id-1").1
      "id-1" = .PointsResponse (calculatePoints convAMD64 sampleReceipt) ∧
    calculatePoints convAMD64 sampleReceipt = 28 :=
  ⟨by decide,
   (lookup_after_process sampleDecode convAMD64 Store.empty "target" "id-1" sampleReceipt
      (by decide)).1,
   (lookup_after_process sampleDecode convAMD64 Store.empty "target" "id-1" sampleReceipt
      (by decide)).2,
   by decide⟩

/-- C4: in every state reached from the empty store by a sequence of process
operations, the lookup of an identifier answers "Receipt not found" (404)
exactly when no process operation of the sequence issued that identifier. -/
theorem lookup_notFound_iff_not_issued (decode : String → Option Receipt) (conv : F64 → Int)
    (reqs : List (String × String)) (receiptID : String) :
    lookupPoints (processAll decode conv Store.empty reqs).1 receiptID
        = .error "Receipt not found" 404 ↔
      receiptID ∉ issuedIDs (processAll decode conv Store.empty reqs).2 := by
  have h := points_processAll decode conv reqs Store.empty receiptID
  have h0 : Store.empty.points receiptID = none := rfl
  rw [h0] at h
  simp only [true_and] at h
  rw [← h]
  unfold lookupPoints
  cases (processAll decode conv Store.empty reqs).1.points receiptID <;> simp

/-! ## C5: the retailer rule -/

/-- C5 (amended): the retailer rule adds the number of ASCII letters and digits
of the retailer name.  For every receipt the score equals the score of the same
receipt with an empty retailer name plus that count, reduced to int64; when the
sums of the rules of both receipts lie within int64, the score exceeds the
other by exactly that count. -/
theorem retailer_rule_contribution (conv : F64 → Int) (r : Receipt) :
    retailerPoints r.Retailer = (alnumCount r.Retailer : Int) ∧
    calculatePoints conv r
      = wrapInt64 (calculatePoints conv { r with Retailer := "" }
          + (alnumCount r.Retailer : Int)) ∧
    (InRange (exactPoints conv { r with Retailer := "" }) → InRange (exactPoints conv r) →
      calculatePoints conv r
        = calculatePoints conv { r with Retailer := "" } + (alnumCount r.Retailer : Int)) := by
  refine ⟨retailerPoints_eq _, ?_, ?_⟩
  · rw [calculatePoints_eq_wrap conv r, calculatePoints_eq_wrap conv { r with Retailer := "" },
      exactPoints_retailer, wrapInt64_add_left]
  · intro h0 h
    rw [calculatePoints_of_inRange conv r h, calculatePoints_of_inRange conv _ h0,
      exactPoints_retailer]

/-- C5, witness: "Target" adds 6 points and "M&M Corner Market" adds 14;
punctuation, white space and non-ASCII letters or digits add nothing.  With
items worth `2^63 - 1` points the retailer "A" wraps the score around to
`-2^63`, as the first equation says. -/
theorem retailer_rule_contribution_witness :
    (calculatePoints convAMD64 sampleReceipt
      = calculatePoints convAMD64 { sampleReceipt with Retailer := "" }
        + (alnumCount sampleReceipt.Retailer : Int)) ∧
    alnumCount sampleReceipt.Retailer = 6 ∧
    (calculatePoints convAMD64 { sampleReceipt with Retailer := "M&M Corner Market" }
      = calculatePoints convAMD64 { sampleReceipt with Retailer := "" }
        + (alnumCount "M&M Corner Market" : Int)) ∧
    alnumCount "M&M Corner Market" = 14 ∧
    alnumCount "Café №9 ½" = 4 ∧
    (calculatePoints convAMD64 (brimReceipt "A")
      = wrapInt64 (calculatePoints convAMD64 { brimReceipt "A" with Retailer := "" }
          + (alnumCount (brimReceipt "A").Retailer : Int))) ∧
    wrapInt64 (calculatePoints convAMD64 { brimReceipt "A" with Retailer := "" }
        + (alnumCount (brimReceipt "A").Retailer : Int)) = -9223372036854775808 :=
  ⟨(retailer_rule_contribution convAMD64 sampleReceipt).2.2 (by decide) (by decide), by decide,
   (retailer_rule_contribution convAMD64 { sampleReceipt with Retailer := "M&M Corner Market" }).2.2
      (by decide) (by decide), by decide, by decide,
   (retailer_rule_contribution convAMD64 (brimReceipt "A")).2.1, by decide⟩

/-- C5, counterexample: with items worth `2^63 - 1` points, the retailer "A"
(one letter) turns the score from the largest int64 into the smallest: the
score does not exceed the score with an empty retailer name by 1. -/
theorem retailer_rule_overflow :
    alnumCount "A" = 1 ∧
    calculatePoints convAMD64 (brimReceipt "") = 9223372036854775807 ∧
    calculatePoints convAMD64 (brimReceipt "A") = -9223372036854775808 ∧
    ¬ (calculatePoints convAMD64 (brimReceipt "A")
        = calculatePoints convAMD64 { brimReceipt "A" with Retailer := "" }
          + (alnumCount (brimReceipt "A").Retailer : Int)) := by
  refine ⟨by decide, by decide, by decide, by decide⟩

/-! ## C6, C7: the two rules on the total -/

/-- C6 (amended): a total that parses to a whole number `t` within the int64
range earns 50 points for the round dollar and 25 for the quarter multiple, and
the score is that of the same receipt with an unparsable total plus 75, reduced
to int64; when the sums of the rules of both receipts lie within int64, the
score exceeds the other by exactly 75. -/
theorem whole_total_contribution (conv : F64 → Int) (r : Receipt) (t : Int) (bad : String)
    (hparse : ParseFloat r.Total = some (.fin (t * (scale : Int))))
    (hrange : InRange t)
    (hbad : ParseFloat bad = none) :
    roundDollarPoints conv r.Total = 50 ∧ quarterPoints r.Total = 25 ∧
    calculatePoints conv r = wrapInt64 (calculatePoints conv { r with Total := bad } + 75) ∧
    (InRange (exactPoints conv { r with Total := bad }) → InRange (exactPoints conv r) →
      calculatePoints conv r = calculatePoints conv { r with Total := bad } + 75) := by
  have h1 := roundDollarPoints_of_whole conv r.Total t hparse hrange
  have h2 := quarterPoints_of_whole r.Total t hparse
  refine ⟨h1, h2, ?_, ?_⟩
  · rw [calculatePoints_eq_wrap conv r, calculatePoints_eq_wrap conv { r with Total := bad },
      exactPoints_total conv r bad hbad, h1, h2, wrapInt64_add_left]
    rfl
  · intro h0 h
    rw [calculatePoints_of_inRange conv r h, calculatePoints_of_inRange conv _ h0,
      exactPoints_total conv r bad hbad, h1, h2]
    rfl

/-- C6, witness: the totals "35.00" and "0.00" add 75 points.  With items worth
`2^63 - 1` points the total "35.00" still earns its 50 and 25, and the score
wraps around to `74 - 2^63`, as the wrap-around equation says. -/
theorem whole_total_contribution_witness :
    ParseFloat "35.00" = some (.fin (35 * (scale : Int))) ∧ ParseFloat "abc" = none ∧
    (calculatePoints convAMD64 { sampleReceipt with Total := "35.00" }
      = calculatePoints convAMD64 { sampleReceipt with Total := "abc" } + 75) ∧
    ParseFloat "0.00" = some (.fin (0 * (scale : Int))) ∧
    (calculatePoints convAMD64 { sampleReceipt with Total := "0.00" }
      = calculatePoints convAMD64 { sampleReceipt with Total := "abc" } + 75) ∧
    (roundDollarPoints convAMD64 "35.00" = 50 ∧ quarterPoints "35.00" = 25) ∧
    (calculatePoints convAMD64 { brimReceipt "" with Total := "35.00" }
      = wrapInt64 (calculatePoints convAMD64 { brimReceipt "" with Total := "abc" } + 75)) ∧
    wrapInt64 (calculatePoints convAMD64 { brimReceipt "" with Total := "abc" } + 75)
      = -9223372036854775734 :=
  ⟨by decide, by decide,
   (whole_total_contribution convAMD64 { sampleReceipt with Total := "35.00" } 35 "abc"
      (by decide) (by decide) (by decide)).2.2.2 (by decide) (by decide),
   by decide,
   (whole_total_contribution convAMD64 { sampleReceipt with Total := "0.00" } 0 "abc"
      (by decide) (by decide) (by decide)).2.2.2 (by decide) (by decide),
   ⟨(whole_total_contribution convAMD64 { brimReceipt "" with Total := "35.00" } 35 "abc"
      (by decide) (by decide) (by decide)).1,
    (whole_total_contribution convAMD64 { brimReceipt "" with Total := "35.00" } 35 "abc"
      (by decide) (by decide) (by decide)).2.1⟩,
   (whole_total_contribution convAMD64 { brimReceipt "" with Total := "35.00" } 35 "abc"
      (by decide) (by decide) (by decide)).2.2.1,
   by decide⟩

/-- C6, counterexample: with items worth `2^63 - 1` points, the total "35.00"
wraps the score around, from the largest int64 to `74 - 2^63`: the score does
not exceed the score with an unparsable total by 75.  Besides, the total
"100000000000000000000" parses to the whole number `10^20`, and on every
platform it earns the 25 points of the quarter multiple only. -/
theorem whole_total_not_75 :
    calculatePoints convAMD64 { brimReceipt "" with Total := "" } = 9223372036854775807 ∧
    calculatePoints convAMD64 { brimReceipt "" with Total := "35.00" } = -9223372036854775734 ∧
    ¬ (calculatePoints convAMD64 { brimReceipt "" with Total := "35.00" }
        = calculatePoints convAMD64 { brimReceipt "" with Total := "" } + 75) ∧
    ParseFloat "100000000000000000000" = some (.fin (100000000000000000000 * (scale : Int))) ∧
    ParseFloat "" = none ∧
    (∀ conv : F64 → Int, roundDollarPoints conv "100000000000000000000" = 0) ∧
    (∀ conv : F64 → Int, calculatePoints conv (totalOnly "100000000000000000000") = 25) ∧
    (∀ conv : F64 → Int, calculatePoints conv (totalOnly "") = 0) ∧
    ¬ (calculatePoints convAMD64 (totalOnly "100000000000000000000")
        = calculatePoints convAMD64 (totalOnly "") + 75) := by
  have hp : ParseFloat "100000000000000000000"
      = some (.fin (100000000000000000000 * (scale : Int))) := by decide
  have hr : ∀ conv : F64 → Int, roundDollarPoints conv "100000000000000000000" = 0 := by
    intro conv
    have ht := roundDollar_test_of_large conv (100000000000000000000 * (scale : Int)) (by decide)
    simp only [roundDollarPoints, hp, ht]
    rfl
  have hq : quarterPoints "100000000000000000000" = 25 := by decide
  have h25 : ∀ conv : F64 → Int, calculatePoints conv (totalOnly "100000000000000000000") = 25 := by
    intro conv
    rw [calculatePoints_eq_wrap]
    simp only [exactPoints, totalOnly, hr conv, hq]
    rfl
  have h0 : ∀ conv : F64 → Int, calculatePoints conv (totalOnly "") = 0 := by
    intro conv
    rw [calculatePoints_eq_wrap]
    have e1 : roundDollarPoints conv "" = 0 := by
      unfold roundDollarPoints
      have : ParseFloat "" = none := by decide
      rw [this]
    simp only [exactPoints, totalOnly, e1]
    rfl
  refine ⟨by decide, by decide, by decide, hp, by decide, hr, h25, h0, ?_⟩
  rw [h25, h0]
  decide

/-- C7: for a total that parses to the double `x`, the quarter-multiple rule
awards 25 points exactly when `x` is a finite multiple of 0.25, and nothing
otherwise; when `x` is no multiple of 0.25 the two total rules award nothing and
the score is that of the same receipt with an unparsable total; when `x` is a
multiple of 0.25 but no whole number the two rules award 25 in all, and the
score is that other score plus 25 (reduced to int64; exactly, when the sums of
the rules lie within int64). -/
theorem quarter_rule_iff (conv : F64 → Int) (r : Receipt) (x : F64) (bad : String)
    (hparse : ParseFloat r.Total = some x) (hbad : ParseFloat bad = none) :
    (quarterPoints r.Total = 25 ↔ IsMultipleOfQuarter x) ∧
    (¬ IsMultipleOfQuarter x →
      roundDollarPoints conv r.Total = 0 ∧ quarterPoints r.Total = 0 ∧
      calculatePoints conv r = calculatePoints conv { r with Total := bad }) ∧
    (IsMultipleOfQuarter x → ¬ IsWhole x →
      roundDollarPoints conv r.Total = 0 ∧ quarterPoints r.Total = 25 ∧
      calculatePoints conv r
        = wrapInt64 (calculatePoints conv { r with Total := bad } + 25) ∧
      (InRange (exactPoints conv { r with Total := bad }) → InRange (exactPoints conv r) →
        calculatePoints conv r = calculatePoints conv { r with Total := bad } + 25)) := by
  have hq : quarterPoints r.Total = if IsMultipleOfQuarter x then 25 else 0 := by
    unfold quarterPoints
    rw [hparse]
    by_cases hm : IsMultipleOfQuarter x
    · simp only [(quarter_test_iff_multiple x).2 hm, hm, if_true]
    · have : F64.eq (Mod x const025) const0 = false := by
        rw [← Bool.not_eq_true, quarter_test_iff_multiple]; exact hm
      simp only [this, hm, if_false, Bool.false_eq_true]
  have hr : ¬ IsWhole x → roundDollarPoints conv r.Total = 0 := by
    intro hw
    unfold roundDollarPoints
    rw [hparse]
    have : F64.eq x (intToFloat (floatToInt conv x)) = false := by
      rw [← Bool.not_eq_true]
      exact fun h => hw (roundDollar_test_isWhole conv x h)
    simp only [this, if_false, Bool.false_eq_true]
  refine ⟨?_, ?_, ?_⟩
  · rw [hq]
    by_cases hm : IsMultipleOfQuarter x <;> simp [hm]
  · intro hm
    have h1 := hr (fun hw => hm (isWhole_isMultipleOfQuarter x hw))
    have h2 : quarterPoints r.Total = 0 := by rw [hq, if_neg hm]
    refine ⟨h1, h2, ?_⟩
    rw [calculatePoints_eq_wrap, calculatePoints_eq_wrap, exactPoints_total conv r bad hbad,
      h1, h2]
    simp
  · intro hm hw
    have h1 := hr hw
    have h2 : quarterPoints r.Total = 25 := by rw [hq, if_pos hm]
    refine ⟨h1, h2, ?_, ?_⟩
    · rw [calculatePoints_eq_wrap, calculatePoints_eq_wrap, exactPoints_total conv r bad hbad,
        h1, h2, wrapInt64_add_left]
      simp
    · intro hr0 hrr
      rw [calculatePoints_of_inRange conv r hrr, calculatePoints_of_inRange conv _ hr0,
        exactPoints_total conv r bad hbad, h1, h2]
      simp

/-- C7, witness: the total "35.35" earns nothing from the two total rules and
"35.25" earns 25. -/
theorem quarter_rule_iff_witness :
    ParseFloat "35.35" = some (.fin (4975070213360845 * ((2 ^ 1027 : Nat) : Int))) ∧
    ParseFloat "35.25" = some (.fin (141 * ((2 ^ 1072 : Nat) : Int))) ∧
    ParseFloat "abc" = none ∧
    (roundDollarPoints convAMD64 "35.35" = 0 ∧ quarterPoints "35.35" = 0 ∧
      calculatePoints convAMD64 { sampleReceipt with Total := "35.35" }
        = calculatePoints convAMD64 { sampleReceipt with Total := "abc" }) ∧
    (roundDollarPoints convAMD64 "35.25" = 0 ∧ quarterPoints "35.25" = 25) ∧
    calculatePoints convAMD64 { sampleReceipt with Total := "35.25" }
      = calculatePoints convAMD64 { sampleReceipt with Total := "abc" } + 25 :=
  ⟨by decide, by decide, by decide,
   (quarter_rule_iff convAMD64 { sampleReceipt with Total := "35.35" } _ "abc"
      (by decide : ParseFloat "35.35" = some (.fin (4975070213360845 * ((2 ^ 1027 : Nat) : Int))))
      (by decide)).2.1 (by decide),
   ⟨((quarter_rule_iff convAMD64 { sampleReceipt with Total := "35.25" } _ "abc"
      (by decide : ParseFloat "35.25" = some (.fin (141 * ((2 ^ 1072 : Nat) : Int))))
      (by decide)).2.2 (by decide) (by decide)).1,
    ((quarter_rule_iff convAMD64 { sampleReceipt with Total := "35.25" } _ "abc"
      (by decide : ParseFloat "35.25" = some (.fin (141 * ((2 ^ 1072 : Nat) : Int))))
      (by decide)).2.2 (by decide) (by decide)).2.1⟩,
   ((quarter_rule_iff convAMD64 { sampleReceipt with Total := "35.25" } _ "abc"
      (by decide : ParseFloat "35.25" = some (.fin (141 * ((2 ^ 1072 : Nat) : Int))))
      (by decide)).2.2 (by decide) (by decide)).2.2.2 (by decide) (by decide)⟩

/-! ## C8: the item-pair rule -/

/-- C8: the item-pair rule adds `5 * floor(n / 2)` for the `n` items of a
receipt, whatever their descriptions and prices.  For every receipt the score
is that of the same receipt without items plus `5 * floor(n / 2)` plus the
description points, reduced to int64, and exactly that sum when the sums of the
rules of both receipts lie within int64.  For a receipt in which no item earns
description points the score is that of the receipt without items plus
`5 * floor(n / 2)`, reduced to int64, and exactly that when the lengths fit an
`int` with the other bonuses. -/
theorem pair_rule_contribution (conv : F64 → Int) (r : Receipt) :
    pairPoints r.Items.length = ((5 * (r.Items.length / 2) : Nat) : Int) ∧
    calculatePoints conv r
      = wrapInt64 (calculatePoints conv { r with Items := [] }
          + ((5 * (r.Items.length / 2) : Nat) : Int) + (r.Items.map (itemPoints conv)).sum) ∧
    (InRange (exactPoints conv { r with Items := [] }) → InRange (exactPoints conv r) →
      calculatePoints conv r
        = calculatePoints conv { r with Items := [] }
          + ((5 * (r.Items.length / 2) : Nat) : Int) + (r.Items.map (itemPoints conv)).sum) ∧
    ((∀ it ∈ r.Items, itemPoints conv it = 0) →
      calculatePoints conv r
        = wrapInt64 (calculatePoints conv { r with Items := [] }
            + ((5 * (r.Items.length / 2) : Nat) : Int)) ∧
      (r.Retailer.length + 5 * (r.Items.length / 2) + 91 < 2 ^ 63 →
        calculatePoints conv r
          = calculatePoints conv { r with Items := [] }
            + ((5 * (r.Items.length / 2) : Nat) : Int))) := by
  have hwrap : calculatePoints conv r
      = wrapInt64 (calculatePoints conv { r with Items := [] }
          + ((5 * (r.Items.length / 2) : Nat) : Int) + (r.Items.map (itemPoints conv)).sum) := by
    rw [calculatePoints_eq_wrap conv r, calculatePoints_eq_wrap conv { r with Items := [] },
      exactPoints_items, add_assoc (wrapInt64 _), wrapInt64_add_left, add_assoc]
  refine ⟨pairPoints_eq _, hwrap, ?_, ?_⟩
  · intro hr0 hr
    rw [calculatePoints_of_inRange conv r hr, calculatePoints_of_inRange conv _ hr0,
      exactPoints_items]
  · intro hnone
    have hz : (r.Items.map (itemPoints conv)).sum = 0 := by
      apply sum_eq_zero_of_forall
      intro x hx
      obtain ⟨it, hit, rfl⟩ := List.mem_map.1 hx
      exact hnone it hit
    refine ⟨by rw [hwrap, hz, add_zero], ?_⟩
    intro hsize
    have h1 := retailerPoints_bounds r.Retailer
    have h2 := roundDollarPoints_bounds conv r.Total
    have h3 := quarterPoints_bounds r.Total
    have h6 := dayPoints_bounds r.PurchaseDate
    have h7 := timePoints_bounds r.PurchaseTime
    have hsz : ((r.Retailer.length + 5 * (r.Items.length / 2) + 91 : Nat) : Int)
        < 9223372036854775808 := by exact_mod_cast hsize
    push_cast at hsz
    have hr0 : InRange (exactPoints conv { r with Items := [] }) := by
      have h0 : pairPoints 0 = 0 := by decide
      simp only [InRange, exactPoints, List.length_nil, h0, List.map_nil, List.sum_nil, minInt64,
        maxInt64]
      omega
    have hr : InRange (exactPoints conv r) := by
      rw [exactPoints_items, hz]
      have h0 : pairPoints 0 = 0 := by decide
      simp only [InRange, exactPoints, List.length_nil, h0, List.map_nil, List.sum_nil, minInt64,
        maxInt64]
      push_cast
      omega
    rw [calculatePoints_of_inRange conv r hr, calculatePoints_of_inRange conv _ hr0,
      exactPoints_items, hz, add_zero]

/-- C8, witness: the five items of the sample receipt add 10 points for their
two pairs, besides the 6 points of their descriptions; no item, three items and
four items (of unparsable price or of a description the rule skips) add 0, 5
and 10 points. -/
theorem pair_rule_contribution_witness :
    (calculatePoints convAMD64 sampleReceipt
      = calculatePoints convAMD64 { sampleReceipt with Items := [] } + ((5 * (5 / 2) : Nat) : Int)
        + (sampleReceipt.Items.map (itemPoints convAMD64)).sum) ∧
    (sampleReceipt.Items.map (itemPoints convAMD64)).sum = 6 ∧
    calculatePoints convAMD64 sampleReceipt = 28 ∧
    calculatePoints convAMD64 { sampleReceipt with Items := [] } = 12 ∧
    (calculatePoints convAMD64 { sampleReceipt with Items := [] }
      = calculatePoints convAMD64 { sampleReceipt with Items := [] } + ((5 * (0 / 2) : Nat) : Int)) ∧
    (calculatePoints convAMD64
        { sampleReceipt with Items := [⟨"abc", "n/a"⟩, ⟨"abc", ""⟩, ⟨"Gatorade", "2.25"⟩] }
      = calculatePoints convAMD64 { sampleReceipt with Items := [] } + 5) ∧
    (calculatePoints convAMD64
        { sampleReceipt with
          Items := [⟨"Gatorade", "2.25"⟩, ⟨"Gatorade", "2.25"⟩, ⟨"abc", "x"⟩, ⟨"abc", "1,5"⟩] }
      = calculatePoints convAMD64 { sampleReceipt with Items := [] } + 10) :=
  ⟨(pair_rule_contribution convAMD64 sampleReceipt).2.2.1 (by decide) (by decide),
   by decide, by decide, by decide,
   ((pair_rule_contribution convAMD64 { sampleReceipt with Items := [] }).2.2.2
      (by decide)).2 (by decide),
   ((pair_rule_contribution convAMD64
      { sampleReceipt with Items := [⟨"abc", "n/a"⟩, ⟨"abc", ""⟩, ⟨"Gatorade", "2.25"⟩] }).2.2.2
      (by decide)).2 (by decide),
   ((pair_rule_contribution convAMD64
      { sampleReceipt with
        Items := [⟨"Gatorade", "2.25"⟩, ⟨"Gatorade", "2.25"⟩, ⟨"abc", "x"⟩, ⟨"abc", "1,5"⟩] }).2.2.2
      (by decide)).2 (by decide)⟩

/-! ## C9: the description rule -/

/-- C9 (amended): an item adds nothing under the description rule when the
length in bytes of its trimmed description is not divisible by 3, or when its
price does not parse.  When the length is divisible by 3 and the price parses to
the finite double `p`, the item adds `ceil(p * 0.2)`, exactly, for `p = 0` and
for `1.5e-323 <= p < 2^53`; for `-2^53 < p < 0` it adds `ceil(p * 0.2)` or one
less, and `ceil(p * 0.2)` when `p` is a multiple of 5.  The loop adds the sum of
these per-item points to the running total (reduced to int64), nothing for an
empty list. -/
theorem description_rule (conv : F64 → Int) (item : Item) :
    (¬ DescriptionCounts item → itemPoints conv item = 0) ∧
    (ParseFloat item.Price = none → itemPoints conv item = 0) ∧
    (∀ k : Int, DescriptionCounts item → ParseFloat item.Price = some (.fin k) →
      (k = 0 ∨ (3 ≤ k ∧ k < ((2 ^ 53 * scale : Nat) : Int))) →
      itemPoints conv item = ⌈(k : ℚ) / (scale : ℚ) * (1 / 5)⌉) ∧
    (∀ k : Int, DescriptionCounts item → ParseFloat item.Price = some (.fin k) →
      (-((2 ^ 53 * scale : Nat) : Int) < k ∧ k < 0) →
      ⌈(k : ℚ) / (scale : ℚ) * (1 / 5)⌉ - 1 ≤ itemPoints conv item ∧
      itemPoints conv item ≤ ⌈(k : ℚ) / (scale : ℚ) * (1 / 5)⌉ ∧
      (((5 * scale : Nat) : Int) ∣ k →
        itemPoints conv item = ⌈(k : ℚ) / (scale : ℚ) * (1 / 5)⌉)) ∧
    (∀ (items : List Item) (points : Int), InRange points →
      items.foldl (itemStep conv) points
        = wrapInt64 (points + (items.map (itemPoints conv)).sum)) ∧
    (∀ points : Int, ([] : List Item).foldl (itemStep conv) points = points) := by
  refine ⟨?_, ?_, ?_, ?_, ?_, ?_⟩
  · intro h
    unfold DescriptionCounts at h
    unfold itemPoints
    rw [if_neg h]
  · intro h
    unfold itemPoints
    rw [h]
    split_ifs <;> rfl
  · intro k hd hp hr
    exact itemPoints_eq_ceil conv item k hd hp hr
  · intro k hd hp hr
    exact itemPoints_of_neg conv item k hd hp hr
  · intro items points hp
    exact foldl_itemStep conv items points hp
  · intro points
    rfl

/-- C9, witness: "Gatorade" (8 bytes) adds nothing whatever the price; a
description of 12 bytes with price "1.25" adds `ceil(0.25) = 1`; an unparsable
price adds nothing; the price "-5.00" adds `ceil(-1) = -1`. -/
theorem description_rule_witness :
    itemPoints convAMD64 ⟨"Gatorade", "2.25"⟩ = 0 ∧
    itemPoints convAMD64 ⟨"Pepsi - 12oz", "free"⟩ = 0 ∧
    ParseFloat "1.25" = some (.fin ((5 * 2 ^ 1072 : Nat) : Int)) ∧
    itemPoints convAMD64 ⟨"Pepsi - 12oz", "1.25"⟩
      = ⌈((((5 * 2 ^ 1072 : Nat) : Int)) : ℚ) / (scale : ℚ) * (1 / 5)⌉ ∧
    itemPoints convAMD64 ⟨"Pepsi - 12oz", "1.25"⟩ = 1 ∧
    ParseFloat "-5.00" = some (.fin (-((5 * scale : Nat) : Int))) ∧
    itemPoints convAMD64 ⟨"Pepsi - 12oz", "-5.00"⟩
      = ⌈((-((5 * scale : Nat) : Int) : Int) : ℚ) / (scale : ℚ) * (1 / 5)⌉ ∧
    itemPoints convAMD64 ⟨"Pepsi - 12oz", "-5.00"⟩ = -1 :=
  ⟨(description_rule convAMD64 ⟨"Gatorade", "2.25"⟩).1 (by decide),
   (description_rule convAMD64 ⟨"Pepsi - 12oz", "free"⟩).2.1 (by decide),
   by decide,
   (description_rule convAMD64 ⟨"Pepsi - 12oz", "1.25"⟩).2.2.1 _ (by decide) (by decide)
     (Or.inr ⟨by decide, by decide⟩),
   by decide,
   by decide,
   ((description_rule convAMD64 ⟨"Pepsi - 12oz", "-5.00"⟩).2.2.2.1 _ (by decide) (by decide)
     ⟨by decide, by decide⟩).2.2 (dvd_neg.2 (dvd_refl _)),
   by decide⟩

/-- C9, counterexample: three items whose description length is divisible by
3.  The price "1e30" parses, and `ceil(price * 0.2)` is beyond every int64, so
no platform adds it; the price "5e-324" parses to a positive number, so
`ceil(price * 0.2)` is 1, and the item adds 0; the price "-24.999999999999996"
has `ceil(price * 0.2) = -4`, and the item adds -5.  The length the rule takes is
the length in bytes: the description "éa", of two characters, counts. -/
theorem description_rule_not_exact_ceil :
    DescriptionCounts ⟨"abc", "1e30"⟩ ∧
    ParseFloat "1e30" = some (.fin ((1000000000000000019884624838656 * scale : Nat) : Int)) ∧
    ⌈((((1000000000000000019884624838656 * scale : Nat) : Int)) : ℚ) / (scale : ℚ) * (1 / 5)⌉
      = 200000000000000003976924967732 ∧
    (∀ conv : F64 → Int, itemPoints conv ⟨"abc", "1e30"⟩ ≤ 9223372036854775807) ∧
    itemPoints convAMD64 ⟨"abc", "1e30"⟩ = -9223372036854775808 ∧
    ParseFloat "5e-324" = some (.fin ((1 : Nat) : Int)) ∧
    ⌈((((1 : Nat) : Int)) : ℚ) / (scale : ℚ) * (1 / 5)⌉ = 1 ∧
    itemPoints convAMD64 ⟨"abc", "5e-324"⟩ = 0 ∧
    ParseFloat "-24.999999999999996"
      = some (.fin (-((7036874417766399 * 2 ^ 1026 : Nat) : Int))) ∧
    ⌈((-((7036874417766399 * 2 ^ 1026 : Nat) : Int) : Int) : ℚ) / (scale : ℚ) * (1 / 5)⌉ = -4 ∧
    itemPoints convAMD64 ⟨"abc", "-24.999999999999996"⟩ = -5 ∧
    ("éa" : String).length = 2 ∧ itemPoints convAMD64 ⟨"éa", "5.00"⟩ = 1 := by
  refine ⟨by decide, by decide, ?_, ?_, by decide, by decide, ?_, by decide, by decide, ?_,
    by decide, by decide, by decide⟩
  · rw [ceil_fifth _ 200000000000000003976924967731 (by decide) (by decide)]
    rfl
  · intro conv
    exact (itemPoints_inRange conv _).2
  · rw [ceil_fifth 1 0 (by decide) (by decide)]
    rfl
  · rw [ceil_fifth_neg]
    have : 7036874417766399 * 2 ^ 1026 / (5 * scale) = 4 := by decide
    rw [this]
    rfl

/-! ## C10: the odd-day rule -/

/-- C10: the odd-day rule awards 6 points exactly when the purchase date is a
calendar date written `YYYY-MM-DD` whose day of the month is odd, and nothing
otherwise.  When it awards nothing the score is that of the same receipt with
an empty date; when it awards 6 the score is that score plus 6 (reduced to
int64; exactly, when the sums of the rules lie within int64). -/
theorem odd_day_rule (conv : F64 → Int) (r : Receipt) :
    (dayPoints r.PurchaseDate = 6 ↔
      ∃ year month day, IsCalendarDate r.PurchaseDate year month day ∧ day % 2 = 1) ∧
    (dayPoints r.PurchaseDate = 6 ∨ dayPoints r.PurchaseDate = 0) ∧
    (dayPoints r.PurchaseDate = 0 →
      calculatePoints conv r = calculatePoints conv { r with PurchaseDate := "" }) ∧
    (dayPoints r.PurchaseDate = 6 →
      calculatePoints conv r
        = wrapInt64 (calculatePoints conv { r with PurchaseDate := "" } + 6) ∧
      (InRange (exactPoints conv { r with PurchaseDate := "" }) →
        InRange (exactPoints conv r) →
        calculatePoints conv r = calculatePoints conv { r with PurchaseDate := "" } + 6)) := by
  refine ⟨?_, ?_, ?_, ?_⟩
  · unfold dayPoints
    constructor
    · intro h
      split at h
      · rename_i t ht
        split_ifs at h with hodd
        · obtain ⟨hdate, _, _⟩ := date_of_Parse_2006_01_02 _ _ ht
          exact ⟨t.year, t.month, t.day, hdate, by unfold Time.Day at hodd; omega⟩
        · exact absurd h (by decide)
      · exact absurd h (by decide)
    · rintro ⟨y, m, d, hdate, hodd⟩
      rw [Parse_2006_01_02_of_date _ _ _ _ hdate]
      have : (⟨y, m, d, 0, 0⟩ : Time).Day % 2 ≠ 0 := by
        show d % 2 ≠ 0
        omega
      simp only [this, ne_eq, not_false_eq_true, if_true]
  · unfold dayPoints
    split
    · split_ifs
      · exact Or.inl rfl
      · exact Or.inr rfl
    · exact Or.inr rfl
  · intro h
    rw [calculatePoints_eq_wrap, calculatePoints_eq_wrap, exactPoints_date, h, add_zero]
  · intro h
    constructor
    · rw [calculatePoints_eq_wrap, calculatePoints_eq_wrap, exactPoints_date, h,
        wrapInt64_add_left]
    · intro hr0 hrr
      rw [calculatePoints_of_inRange conv r hrr, calculatePoints_of_inRange conv _ hr0,
        exactPoints_date, h]

/-- C10, examples: "2022-01-01" earns 6 points, "2022-01-02" earns none, and
no more do a day that is not in the calendar or a date in another format. -/
theorem odd_day_rule_witness :
    dayPoints "2022-01-01" = 6 ∧ dayPoints "2022-01-02" = 0 ∧
    dayPoints "2023-02-29" = 0 ∧ dayPoints "2022-1-1" = 0 ∧ dayPoints "01/01/2022" = 0 ∧
    (calculatePoints convAMD64 { sampleReceipt with PurchaseDate := "2022-01-02" }
      = calculatePoints convAMD64 { sampleReceipt with PurchaseDate := "" }) ∧
    calculatePoints convAMD64 { sampleReceipt with PurchaseDate := "2022-01-01" }
      = calculatePoints convAMD64 { sampleReceipt with PurchaseDate := "" } + 6 :=
  ⟨by decide, by decide, by decide, by decide, by decide,
   (odd_day_rule convAMD64 { sampleReceipt with PurchaseDate := "2022-01-02" }).2.2.1 (by decide),
   ((odd_day_rule convAMD64 { sampleReceipt with PurchaseDate := "2022-01-01" }).2.2.2
      (by decide)).2 (by decide) (by decide)⟩

/-! ## C11: the afternoon rule -/

/-- C11: the afternoon rule awards 10 points exactly when the purchase time
parses under the layout `15:04` with hour 14, that is, exactly when it is
written `14:MM` with a minute `MM` from 00 to 59, and awards nothing otherwise.
When it awards nothing the score is that of the same receipt with an empty
time; when it awards 10 the score is that score plus 10 (reduced to int64;
exactly, when the sums of the rules lie within int64). -/
theorem afternoon_rule (conv : F64 → Int) (r : Receipt) :
    (timePoints r.PurchaseTime = 10 ↔
      ∃ parsedTime, Parse_15_04 r.PurchaseTime = some parsedTime ∧ parsedTime.Hour = 14) ∧
    (timePoints r.PurchaseTime = 10 ↔ ∃ minute, IsClockTime r.PurchaseTime 14 minute) ∧
    (timePoints r.PurchaseTime = 10 ∨ timePoints r.PurchaseTime = 0) ∧
    (timePoints r.PurchaseTime = 0 →
      calculatePoints conv r = calculatePoints conv { r with PurchaseTime := "" }) ∧
    (timePoints r.PurchaseTime = 10 →
      calculatePoints conv r
        = wrapInt64 (calculatePoints conv { r with PurchaseTime := "" } + 10) ∧
      (InRange (exactPoints conv { r with PurchaseTime := "" }) →
        InRange (exactPoints conv r) →
        calculatePoints conv r = calculatePoints conv { r with PurchaseTime := "" } + 10)) := by
  refine ⟨?_, timePoints_eq_ten_iff _, ?_, ?_, ?_⟩
  · unfold timePoints
    constructor
    · intro h
      split at h
      · rename_i t ht
        split_ifs at h with h14
        · exact ⟨t, ht, h14⟩
        · exact absurd h (by decide)
      · exact absurd h (by decide)
    · rintro ⟨t, ht, h14⟩
      rw [ht]
      simp only [h14, if_true]
  · unfold timePoints
    split
    · split_ifs
      · exact Or.inl rfl
      · exact Or.inr rfl
    · exact Or.inr rfl
  · intro h
    rw [calculatePoints_eq_wrap, calculatePoints_eq_wrap, exactPoints_time, h, add_zero]
  · intro h
    constructor
    · rw [calculatePoints_eq_wrap, calculatePoints_eq_wrap, exactPoints_time, h,
        wrapInt64_add_left]
    · intro hr0 hrr
      rw [calculatePoints_of_inRange conv r hrr, calculatePoints_of_inRange conv _ hr0,
        exactPoints_time, h]

/-- C11, examples: "14:33" earns 10 points, as do "14:00" and "14:59";
"15:01", "13:59", "16:00" and times that do not parse earn none. -/
theorem afternoon_rule_witness :
    timePoints "14:33" = 10 ∧ timePoints "14:00" = 10 ∧ timePoints "14:59" = 10 ∧
    timePoints "15:01" = 0 ∧ timePoints "13:59" = 0 ∧ timePoints "16:00" = 0 ∧
    timePoints "" = 0 ∧ timePoints "14:60" = 0 ∧ timePoints "14:5" = 0 ∧
    timePoints "2:33 PM" = 0 ∧ timePoints "14:33:00" = 0 ∧
    (calculatePoints convAMD64 { sampleReceipt with PurchaseTime := "15:01" }
      = calculatePoints convAMD64 { sampleReceipt with PurchaseTime := "" }) ∧
    calculatePoints convAMD64 { sampleReceipt with PurchaseTime := "14:33" }
      = calculatePoints convAMD64 { sampleReceipt with PurchaseTime := "" } + 10 :=
  ⟨by decide, by decide, by decide, by decide, by decide, by decide, by decide, by decide,
   by decide, by decide, by decide,
   (afternoon_rule convAMD64 { sampleReceipt with PurchaseTime := "15:01" }).2.2.2.1 (by decide),
   ((afternoon_rule convAMD64 { sampleReceipt with PurchaseTime := "14:33" }).2.2.2.2
      (by decide)).2 (by decide) (by decide)⟩

/-! ## C12: a total that does not parse -/

/-- C12 (amended): when the total does not parse, the round-dollar and the
quarter-multiple rules award nothing and the score is the sum of the retailer,
item-pair, description, odd-day and afternoon contributions, reduced to the
int64 range by wrap-around; it is the plain sum whenever that sum lies within
int64.  No other rule is affected: the score is the same for every unparsable
total. -/
theorem unparsable_total_score (conv : F64 → Int) (r : Receipt)
    (hparse : ParseFloat r.Total = none) :
    roundDollarPoints conv r.Total = 0 ∧ quarterPoints r.Total = 0 ∧
    InRange (calculatePoints conv r) ∧
    calculatePoints conv r
      = wrapInt64 (retailerPoints r.Retailer + pairPoints r.Items.length
          + (r.Items.map (itemPoints conv)).sum
          + dayPoints r.PurchaseDate + timePoints r.PurchaseTime) ∧
    (InRange (retailerPoints r.Retailer + pairPoints r.Items.length
          + (r.Items.map (itemPoints conv)).sum
          + dayPoints r.PurchaseDate + timePoints r.PurchaseTime) →
      calculatePoints conv r
        = retailerPoints r.Retailer + pairPoints r.Items.length
          + (r.Items.map (itemPoints conv)).sum
          + dayPoints r.PurchaseDate + timePoints r.PurchaseTime) ∧
    (∀ bad : String, ParseFloat bad = none →
      calculatePoints conv { r with Total := bad } = calculatePoints conv r) := by
  have h1 : roundDollarPoints conv r.Total = 0 := by unfold roundDollarPoints; rw [hparse]
  have h2 : quarterPoints r.Total = 0 := by unfold quarterPoints; rw [hparse]
  have he : exactPoints conv r
      = retailerPoints r.Retailer + pairPoints r.Items.length
          + (r.Items.map (itemPoints conv)).sum
          + dayPoints r.PurchaseDate + timePoints r.PurchaseTime := by
    simp only [exactPoints, h1, h2, add_zero]
  refine ⟨h1, h2, ?_, ?_, ?_, ?_⟩
  · rw [calculatePoints_eq_wrap]
    exact wrapInt64_inRange _
  · rw [calculatePoints_eq_wrap, he]
  · intro hr
    rw [calculatePoints_eq_wrap, he, wrapInt64_of_inRange hr]
  · intro bad hbad
    rw [calculatePoints_eq_wrap, calculatePoints_eq_wrap, exactPoints_total conv r bad hbad, h1, h2]
    simp

/-- C12, witness: the sample receipt with the total "abc" scores
`6 + 10 + 6 + 6 + 0 = 28`, and as much with an empty total. -/
theorem unparsable_total_score_witness :
    ParseFloat "abc" = none ∧ ParseFloat "" = none ∧ ParseFloat "12,50" = none ∧
    calculatePoints convAMD64 { sampleReceipt with Total := "abc" }
      = retailerPoints "Target" + pairPoints 5
        + (sampleReceipt.Items.map (itemPoints convAMD64)).sum
        + dayPoints "2022-01-01" + timePoints "13:01" ∧
    retailerPoints "Target" = 6 ∧ pairPoints 5 = 10 ∧
    (sampleReceipt.Items.map (itemPoints convAMD64)).sum = 6 ∧
    dayPoints "2022-01-01" = 6 ∧ timePoints "13:01" = 0 ∧
    calculatePoints convAMD64 { sampleReceipt with Total := "abc" } = 28 ∧
    calculatePoints convAMD64 { sampleReceipt with Total := "" } = 28 :=
  ⟨by decide, by decide, by decide,
   (unparsable_total_score convAMD64 { sampleReceipt with Total := "abc" } (by decide)).2.2.2.2.1
     (by decide),
   by decide, by decide, by decide, by decide, by decide, by decide, by decide⟩

/-- C12, counterexample: a receipt with an empty total and two items of price
`5 * 2^62`.  The five contributions sum to `2^63 + 5`; the score is `5 - 2^63`. -/
theorem unparsable_total_not_plain_sum :
    ParseFloat (itemsOnly [hugeItem, hugeItem]).Total = none ∧
    retailerPoints (itemsOnly [hugeItem, hugeItem]).Retailer
      + pairPoints (itemsOnly [hugeItem, hugeItem]).Items.length
      + ((itemsOnly [hugeItem, hugeItem]).Items.map (itemPoints convAMD64)).sum
      + dayPoints (itemsOnly [hugeItem, hugeItem]).PurchaseDate
      + timePoints (itemsOnly [hugeItem, hugeItem]).PurchaseTime = 9223372036854775813 ∧
    calculatePoints convAMD64 (itemsOnly [hugeItem, hugeItem]) = -9223372036854775803 ∧
    calculatePoints convARM64 (itemsOnly [hugeItem, hugeItem]) = -9223372036854775803 ∧
    ¬ (calculatePoints convAMD64 (itemsOnly [hugeItem, hugeItem])
        = retailerPoints (itemsOnly [hugeItem, hugeItem]).Retailer
          + pairPoints (itemsOnly [hugeItem, hugeItem]).Items.length
          + ((itemsOnly [hugeItem, hugeItem]).Items.map (itemPoints convAMD64)).sum
          + dayPoints (itemsOnly [hugeItem, hugeItem]).PurchaseDate
          + timePoints (itemsOnly [hugeItem, hugeItem]).PurchaseTime) := by
  refine ⟨by decide, by decide, by decide, by decide, by decide⟩

/-! ## C13: stored records stay -/

/-- C13: a record that is in the store under the identifier `A` stays as it
is.  A process operation that is given another identifier leaves the points
and the receipt stored under `A`, and so the lookup of `A`, unchanged; a lookup
changes nothing; hence after any sequence of later requests in which no process
request is given `A` again, the lookup of `A` answers with the same points.  In
particular an identifier that process has returned for a receipt resolves to
the score of that receipt in every later state. -/
theorem stored_record_stays (decode : String → Option Receipt) (conv : F64 → Int) (st : Store)
    (A : String) (p : Int) (hA : st.points A = some p) :
    lookupPoints st A = .PointsResponse p ∧
    (∀ body receiptID : String, receiptID ≠ A →
      (processReceiptHandler decode conv st body receiptID).1.points A = some p ∧
      (processReceiptHandler decode conv st body receiptID).1.receipts A = st.receipts A ∧
      lookupPoints (processReceiptHandler decode conv st body receiptID).1 A
        = lookupPoints st A) ∧
    (∀ path : String, (serve decode conv st (.lookup path)).1 = st) ∧
    (∀ later : List Request, (∀ req ∈ later, req.draws A = false) →
      (serveAll decode conv st later).1.points A = some p ∧
      (serveAll decode conv st later).1.receipts A = st.receipts A ∧
      lookupPoints (serveAll decode conv st later).1 A = .PointsResponse p ∧
      getPointsHandler (serveAll decode conv st later).1 ("/receipts/" ++ A ++ "/points")
        = .PointsResponse p) ∧
    (∀ (st₀ : Store) (body : String) (receipt : Receipt) (later : List Request),
      decode body = some receipt → (∀ req ∈ later, req.draws A = false) →
      (processReceiptHandler decode conv st₀ body A).2 = .IDResponse A ∧
      lookupPoints (serveAll decode conv (processReceiptHandler decode conv st₀ body A).1 later).1 A
        = .PointsResponse (calculatePoints conv receipt)) := by
  have h0 : lookupPoints st A = .PointsResponse p := by simp [lookupPoints, hA]
  refine ⟨h0, ?_, ?_, ?_, ?_⟩
  · intro body receiptID hne
    have hne' : ¬ A = receiptID := fun h => hne h.symm
    cases hd : decode body <;>
      simp [processReceiptHandler, hd, GoMap.set, hne', hA, lookupPoints]
  · intro path
    rfl
  · intro later hlater
    obtain ⟨h1, h2⟩ := serveAll_keeps decode conv A later st hlater
    refine ⟨by rw [h1, hA], h2, by simp [lookupPoints, h1, hA], ?_⟩
    unfold getPointsHandler
    rw [pathReceiptID_route]
    simp [lookupPoints, h1, hA]
  · intro st₀ body receipt later hdec hlater
    obtain ⟨h1, _⟩ := serveAll_keeps decode conv A later
      (processReceiptHandler decode conv st₀ body A).1 hlater
    refine ⟨by simp [processReceiptHandler, hdec], ?_⟩
    unfold lookupPoints
    rw [h1]
    simp [processReceiptHandler, hdec, GoMap.set]

/-- C13, witness: the sample receipt is stored under "id-1" with 28 points;
another receipt is then processed under "id-2", an undecodable body is
rejected, and lookups are served: "id-1" still answers 28. -/
theorem stored_record_stays_witness :
    (processReceiptHandler sampleDecode convAMD64 Store.empty "target" "id-1").1.points "id-1"
      = some 28 ∧
    (∀ req ∈ [Request.process "target" "id-2", Request.lookup "/receipts/id-2/points",
        Request.process "junk" "id-3", Request.lookup "/receipts/id-1/points"],
      req.draws "id-1" = false) ∧
    lookupPoints (serveAll sampleDecode convAMD64
      (processReceiptHandler sampleDecode convAMD64 Store.empty "target" "id-1").1
      [Request.process "target" "id-2", Request.lookup "/receipts/id-2/points",
        Request.process "junk" "id-3", Request.lookup "/receipts/id-1/points"]).1 "id-1"
      = .PointsResponse 28 ∧
    (serveAll sampleDecode convAMD64
      (processReceiptHandler sampleDecode convAMD64 Store.empty "target" "id-1").1
      [Request.process "target" "id-2", Request.lookup "/receipts/id-2/points",
        Request.process "junk" "id-3", Request.lookup "/receipts/id-1/points"]).2
      = [.IDResponse "id-2", .PointsResponse 28, .error "Invalid receipt" 400,
         .PointsResponse 28] :=
  ⟨by decide, by decide,
   ((stored_record_stays sampleDecode convAMD64
      (processReceiptHandler sampleDecode convAMD64 Store.empty "target" "id-1").1 "id-1" 28
      (by decide)).2.2.2.1 _ (by decide)).2.2.1,
   by decide⟩

/-! ## C14: a body that does not decode -/

/-- C14: when the body does not decode into a receipt, the process operation
answers "Invalid receipt" with status 400 and no identifier, and leaves the
store as it was, both maps.  `calculatePoints` is not called: the outcome is
the same whatever the scoring gives, and the goroutine of the handler returns
from line 98 in one step, so it never is at line 110, the one call of
`calculatePoints`. -/
theorem decode_error_rejected (decode : String → Option Receipt) (conv : F64 → Int)
    (st : Store) (body receiptID : String) (h : decode body = none) :
    processReceiptHandler decode conv st body receiptID = (st, .error "Invalid receipt" 400) ∧
    (∀ ID : String, (processReceiptHandler decode conv st body receiptID).2 ≠ .IDResponse ID) ∧
    issuedIDs [(processReceiptHandler decode conv st body receiptID).2] = [] ∧
    (processReceiptHandler decode conv st body receiptID).1.receipts = st.receipts ∧
    (processReceiptHandler decode conv st body receiptID).1.points = st.points ∧
    (∀ conv' : F64 → Int, processReceiptHandler decode conv' st body receiptID
      = processReceiptHandler decode conv st body receiptID) ∧
    (∀ mu : Bool, Goroutine.step decode conv st mu (.procDecode body receiptID)
      = some (st, mu, .done (.error "Invalid receipt" 400))) ∧
    (∀ (st' : Store) (mu' : Bool),
      Goroutine.step decode conv st' mu' (.done (.error "Invalid receipt" 400)) = none) ∧
    (∀ (path : String),
      getPointsHandler (processReceiptHandler decode conv st body receiptID).1 path
        = getPointsHandler st path) := by
  have h0 : processReceiptHandler decode conv st body receiptID
      = (st, .error "Invalid receipt" 400) := by
    simp [processReceiptHandler, h]
  refine ⟨h0, ?_, ?_, ?_, ?_, ?_, ?_, ?_, ?_⟩
  · intro ID
    rw [h0]
    exact fun hne => Response.noConfusion hne
  · rw [h0]
    rfl
  · rw [h0]
  · rw [h0]
  · intro conv'
    simp [processReceiptHandler, h]
  · intro mu
    simp [Goroutine.step, h]
  · intro st' mu'
    rfl
  · intro path
    rw [h0]

/-- C14, witness: the body "junk" does not decode; the store and the lookups
stay as they were. -/
theorem decode_error_rejected_witness :
    sampleDecode "junk" = none ∧
    (processReceiptHandler sampleDecode convAMD64 Store.empty "junk" "id-1").2
      = .error "Invalid receipt" 400 ∧
    lookupPoints (processReceiptHandler sampleDecode convAMD64 Store.empty "junk" "id-1").1 "id-1"
      = .error "Receipt not found" 404 :=
  ⟨by decide,
   congrArg Prod.snd (decode_error_rejected sampleDecode convAMD64 Store.empty "junk" "id-1"
      (by decide)).1,
   by decide⟩

/-! ## C15: concurrent process calls -/

/-- C17: the score of a receipt is the score of the same receipt with its items
in any other order. -/
theorem calculatePoints_perm (conv : F64 → Int) (r : Receipt) (items : List Item)
    (h : r.Items.Perm items) :
    calculatePoints conv { r with Items := items } = calculatePoints conv r := by
  rw [calculatePoints_eq_wrap, calculatePoints_eq_wrap, exactPoints_perm conv r items h]

/-- C17, witness: the sample receipt with its items reversed scores 28 as
before.  Three items whose points are `2^62`, `2^62` and `-2^62` score `2^62 + 5`
in every order, also when the running total wraps around on the way. -/
theorem calculatePoints_perm_witness :
    sampleReceipt.Items.Perm sampleReceipt.Items.reverse ∧
    calculatePoints convAMD64 { sampleReceipt with Items := sampleReceipt.Items.reverse }
      = calculatePoints convAMD64 sampleReceipt ∧
    calculatePoints convAMD64 { sampleReceipt with Items := sampleReceipt.Items.reverse } = 28 ∧
    calculatePoints convAMD64
        (itemsOnly [hugeItem, hugeItem, ⟨"", "-23058430092136939520"⟩]) = 4611686018427387909 ∧
    calculatePoints convAMD64
        (itemsOnly [hugeItem, ⟨"", "-23058430092136939520"⟩, hugeItem]) = 4611686018427387909 ∧
    calculatePoints convAMD64
        (itemsOnly [⟨"", "-23058430092136939520"⟩, hugeItem, hugeItem]) = 4611686018427387909 :=
  ⟨(List.reverse_perm _).symm,
   calculatePoints_perm convAMD64 sampleReceipt sampleReceipt.Items.reverse
     (List.reverse_perm _).symm,
   by decide, by decide, by decide, by decide⟩

/-! ## C18: the two rules on the total together -/

/-- C18: for every total string, on every platform, the round-dollar rule
awards its 50 points only when the quarter-multiple rule awards its 25: both
rules together award 0, 25 or 75, never 50.  So the score is that of the same
receipt with an unparsable total plus 0, 25 or 75, reduced to int64. -/
theorem total_rules_never_fifty (conv : F64 → Int) (total : String) :
    (roundDollarPoints conv total = 50 → quarterPoints total = 25) ∧
    (roundDollarPoints conv total + quarterPoints total = 0 ∨
      roundDollarPoints conv total + quarterPoints total = 25 ∨
      roundDollarPoints conv total + quarterPoints total = 75) ∧
    roundDollarPoints conv total + quarterPoints total ≠ 50 ∧
    (∀ (r : Receipt) (bad : String), r.Total = total → ParseFloat bad = none →
      calculatePoints conv r = calculatePoints conv { r with Total := bad } ∨
      calculatePoints conv r = wrapInt64 (calculatePoints conv { r with Total := bad } + 25) ∨
      calculatePoints conv r = wrapInt64 (calculatePoints conv { r with Total := bad } + 75)) := by
  have hcases : (roundDollarPoints conv total = 0 ∧ quarterPoints total = 0) ∨
      (roundDollarPoints conv total = 0 ∧ quarterPoints total = 25) ∨
      (roundDollarPoints conv total = 50 ∧ quarterPoints total = 25) := by
    unfold roundDollarPoints quarterPoints
    cases hp : ParseFloat total with
    | none => exact Or.inl ⟨rfl, rfl⟩
    | some x =>
      by_cases hr : F64.eq x (intToFloat (floatToInt conv x)) = true
      · have hq : F64.eq (Mod x const025) const0 = true :=
          (quarter_test_iff_multiple x).2
            (isWhole_isMultipleOfQuarter x (roundDollar_test_isWhole conv x hr))
        right; right
        constructor
        · show (if F64.eq x (intToFloat (floatToInt conv x)) = true then (50 : Int) else 0) = 50
          rw [if_pos hr]
        · show (if F64.eq (Mod x const025) const0 = true then (25 : Int) else 0) = 25
          rw [if_pos hq]
      · by_cases hq : F64.eq (Mod x const025) const0 = true
        · right; left
          constructor
          · show (if F64.eq x (intToFloat (floatToInt conv x)) = true then (50 : Int) else 0) = 0
            rw [if_neg hr]
          · show (if F64.eq (Mod x const025) const0 = true then (25 : Int) else 0) = 25
            rw [if_pos hq]
        · left
          constructor
          · show (if F64.eq x (intToFloat (floatToInt conv x)) = true then (50 : Int) else 0) = 0
            rw [if_neg hr]
          · show (if F64.eq (Mod x const025) const0 = true then (25 : Int) else 0) = 0
            rw [if_neg hq]
  refine ⟨?_, ?_, ?_, ?_⟩
  · intro h50
    rcases hcases with ⟨h1, _⟩ | ⟨h1, _⟩ | ⟨_, h2⟩
    · rw [h1] at h50; exact absurd h50 (by decide)
    · rw [h1] at h50; exact absurd h50 (by decide)
    · exact h2
  · rcases hcases with ⟨h1, h2⟩ | ⟨h1, h2⟩ | ⟨h1, h2⟩ <;> rw [h1, h2] <;> decide
  · rcases hcases with ⟨h1, h2⟩ | ⟨h1, h2⟩ | ⟨h1, h2⟩ <;> rw [h1, h2] <;> decide
  · intro r bad hr hbad
    subst hr
    rw [calculatePoints_eq_wrap conv r, calculatePoints_eq_wrap conv { r with Total := bad },
      exactPoints_total conv r bad hbad]
    rcases hcases with ⟨h1, h2⟩ | ⟨h1, h2⟩ | ⟨h1, h2⟩
    · left
      rw [h1, h2]
      simp
    · right; left
      rw [h1, h2, wrapInt64_add_left]
      simp
    · right; right
      rw [h1, h2, wrapInt64_add_left]
      rfl

/-- C18, examples: what the two rules award for whole, quarter, other, huge,
negative, special and unparsable totals. -/
theorem total_rules_never_fifty_witness :
    roundDollarPoints convAMD64 "35.00" + quarterPoints "35.00" = 75 ∧
    roundDollarPoints convAMD64 "35.25" + quarterPoints "35.25" = 25 ∧
    roundDollarPoints convAMD64 "35.35" + quarterPoints "35.35" = 0 ∧
    roundDollarPoints convAMD64 "-7" + quarterPoints "-7" = 75 ∧
    roundDollarPoints convAMD64 "-0.75" + quarterPoints "-0.75" = 25 ∧
    roundDollarPoints convAMD64 "1e30" + quarterPoints "1e30" = 25 ∧
    roundDollarPoints convARM64 "1e30" + quarterPoints "1e30" = 25 ∧
    roundDollarPoints convAMD64 "9223372036854775808" + quarterPoints "9223372036854775808"
      = 25 ∧
    roundDollarPoints convARM64 "9223372036854775808" + quarterPoints "9223372036854775808"
      = 75 ∧
    roundDollarPoints convAMD64 "1e400" + quarterPoints "1e400" = 0 ∧
    roundDollarPoints convAMD64 "Inf" + quarterPoints "Inf" = 0 ∧
    roundDollarPoints convAMD64 "NaN" + quarterPoints "NaN" = 0 ∧
    roundDollarPoints convARM64 "NaN" + quarterPoints "NaN" = 0 ∧
    roundDollarPoints convAMD64 "abc" + quarterPoints "abc" = 0 ∧
    roundDollarPoints convAMD64 "35.00" + quarterPoints "35.00" ≠ 50 :=
  ⟨by decide, by decide, by decide, by decide, by decide, by decide, by decide, by decide,
   by decide, by decide, by decide, by decide, by decide, by decide,
   (total_rules_never_fifty convAMD64 "35.00").2.2.1⟩

/-! ## C19: the identifier extracted from the path -/

/-- C19: for every identifier string `id`, the identifier `getPointsHandler`
extracts from the path `"/receipts/" + id + "/points"` is exactly `id`, so the
lookup on that path is the lookup of `id` in the store; after the process
operation has stored a receipt under `id`, the lookup on that path answers with
the score of that receipt. -/
theorem route_inverts_path (id : String) :
    pathReceiptID ("/receipts/" ++ id ++ "/points") = id ∧
    String.mk (TrimSuffix (TrimPrefix ("/receipts/" ++ id ++ "/points").toList
      "/receipts/".toList) "/points".toList) = id ∧
    (∀ st : Store, getPointsHandler st ("/receipts/" ++ id ++ "/points") = lookupPoints st id) ∧
    (∀ (decode : String → Option Receipt) (conv : F64 → Int) (st : Store) (body : String)
        (receipt : Receipt), decode body = some receipt →
      getPointsHandler (processReceiptHandler decode conv st body id).1
          ("/receipts/" ++ id ++ "/points")
        = .PointsResponse (calculatePoints conv receipt)) := by
  have h1 := pathReceiptID_route id
  refine ⟨h1, ?_, ?_, ?_⟩
  · have h : ("/receipts/" ++ id ++ "/points").toList
        = "/receipts/".toList ++ (id.toList ++ "/points".toList) := by
      simp [String.toList, List.append_assoc]
    rw [h, TrimPrefix_append, TrimSuffix_append]
    rfl
  · intro st
    unfold getPointsHandler
    rw [h1]
  · intro decode conv st body receipt hdec
    unfold getPointsHandler
    rw [h1]
    simp [processReceiptHandler, hdec, lookupPoints, GoMap.set]

/-- C19, examples: the path of a UUID, of the empty identifier, of an identifier
that itself ends in "/points" and of one that starts with "/receipts/"; a path
without the suffix is read whole after the "/receipts/". -/
theorem route_inverts_path_witness :
    pathReceiptID "/receipts/7fb1377b-b223-49d9-a31a-5a02701dd310/points"
      = "7fb1377b-b223-49d9-a31a-5a02701dd310" ∧
    pathReceiptID "/receipts//points" = "" ∧
    pathReceiptID "/receipts/a/points/points" = "a/points" ∧
    pathReceiptID "/receipts//receipts/a/points" = "/receipts/a" ∧
    pathReceiptID "/receipts/abc" = "abc" ∧
    getPointsHandler (processReceiptHandler sampleDecode convAMD64 Store.empty "target" "id-1").1
      "/receipts/id-1/points" = .PointsResponse 28 :=
  ⟨by decide, by decide, by decide, by decide, by decide,
   ((route_inverts_path "id-1").2.2.2 sampleDecode convAMD64 Store.empty "target" sampleReceipt
      (by decide)).trans (by decide)⟩

end ReceiptProcessor
